import Mathlib

/-!
Verification of the rookpkg package manager (RookeryOS) against its
specification.

This file shallowly embeds the parts of `src/rookpkg/src` that the claims
concern:

  * `database.rs`  — the SQLite package database (packages / files /
    dependencies relations), modelled with explicit SQLite semantics for
    the `ON DELETE CASCADE` clauses: SQLite enforces foreign keys (and
    thus cascades) exactly on a connection whose `foreign_keys` pragma is
    on, so the model carries that flag; see `Database.openInit` for how
    its value for this program's connection is fixed.
  * `transaction.rs` — the transaction engine: operations, journal,
    execution, rollback, hook scripts, and the journal save path.
  * `repository.rs` — `RepoManager::update_all` / `update_repo_by_index`.
  * `cli/install.rs` — the already-installed filter of the install command.

Filesystem model: file contents by absolute path (an association list),
plus a set of directories.  The per-transaction backup tree (which lives
under the transaction directory) and the persisted script store
(`var/lib/rookpkg/scripts/<pkg>/`) are carried as separate components of
the state.  Hook scripts are external processes: running one is modelled
as an emitted event plus a success/failure oracle; its effect on the
filesystem is outside the model.  `toml` serialization of an
`InstalledPackage` round-trips, so the journal backup payload is carried
as the record itself.  Real filesystem calls are fallible
(`std::io::Result`); the environment `FsEnv` decides which `fs::copy` /
`fs::remove_file` calls fail.
-/

namespace RookPkg

/-! ## Filesystem: file contents keyed by absolute path -/

/-- A file store: association list from path to content. -/
abbrev FS := List (String × String)

namespace FS

/-- The empty store. -/
def empty : FS := []

/-- Content at a path (`None` when the path is absent). -/
def get (fs : FS) (p : String) : Option String :=
  (List.find? (fun e => e.1 = p) fs).map (fun e => e.2)

/-- Write content at a path, replacing any previous entry. -/
def set (fs : FS) (p v : String) : FS :=
  (p, v) :: List.filter (fun e => e.1 ≠ p) fs

/-- Delete a path. -/
def del (fs : FS) (p : String) : FS :=
  List.filter (fun e => e.1 ≠ p) fs

theorem find_filter_other (fs : List (String × String)) (p q : String) (h : q ≠ p) :
    List.find? (fun e => e.1 = q) (List.filter (fun e => e.1 ≠ p) fs)
      = List.find? (fun e => e.1 = q) fs := by
  induction fs with
  | nil => rfl
  | cons e rest ih =>
    rw [List.filter_cons]
    by_cases hep : e.1 = p
    · have heq : ¬ (e.1 = q) := by rw [hep]; intro hc; exact h hc.symm
      rw [if_neg (by simp [hep])]
      rw [ih, List.find?_cons_of_neg _ (by simp [heq])]
    · rw [if_pos (by simp [hep])]
      by_cases heq : e.1 = q
      · rw [List.find?_cons_of_pos _ (by simp [heq]), List.find?_cons_of_pos _ (by simp [heq])]
      · rw [List.find?_cons_of_neg _ (by simp [heq]), List.find?_cons_of_neg _ (by simp [heq]),
          ih]

theorem get_set_self (fs : FS) (p v : String) : (fs.set p v).get p = some v := by
  simp [get, set, List.find?]

theorem get_set_ne (fs : FS) (p v q : String) (h : q ≠ p) :
    (fs.set p v).get q = fs.get q := by
  unfold get set
  rw [List.find?_cons_of_neg _ (by simp [Ne.symm h])]
  rw [find_filter_other fs p q h]

theorem get_del_self (fs : FS) (p : String) : (fs.del p).get p = none := by
  have hnone : List.find? (fun e => e.1 = p) (List.filter (fun e => e.1 ≠ p) fs) = none := by
    rw [List.find?_eq_none]
    intro e he
    simp only [List.mem_filter, decide_not, decide_eq_true_eq, Bool.not_eq_true',
      decide_eq_false_iff_not] at he
    simp [he.2]
  unfold get del
  rw [hnone]
  rfl

theorem get_del_ne (fs : FS) (p q : String) (h : q ≠ p) :
    (fs.del p).get q = fs.get q := by
  unfold get del
  rw [find_filter_other fs p q h]

end FS

/-! ## Path and string helpers

All string manipulation is done through structurally recursive functions
on the character list, so that every definition evaluates inside the
kernel. -/

/-- Split a character list on a separator (the semantics of
`str::split`). -/
def splitSep (sep : Char) : List Char → List (List Char)
  | [] => [[]]
  | c :: rest =>
    let r := splitSep sep rest
    if c = sep then [] :: r
    else
      match r with
      | h :: t => (c :: h) :: t
      | [] => [[c]]

/-- Join with `/` (inverse of splitting on `/`). -/
def joinSlash : List (List Char) → List Char
  | [] => []
  | [x] => x
  | x :: rest => x ++ '/' :: joinSlash rest

/-- Is the string empty (`str::is_empty`)? -/
def strIsEmpty (s : String) : Bool := s.data.isEmpty

/-- Is the string whitespace-only (`s.trim().is_empty()`)? -/
def trimIsEmpty (s : String) : Bool := s.data.all (fun c => c.isWhitespace)

/-- Does `s` start with `pre`? -/
def strStartsWith (pre s : String) : Bool := List.isPrefixOf pre.data s.data

/-- Byte-lexicographic string order (`Ord` on Rust strings/paths). -/
def leChars : List Char → List Char → Bool
  | [], _ => true
  | _ :: _, [] => false
  | a :: as_, b :: bs =>
    if a.val < b.val then true
    else if b.val < a.val then false
    else leChars as_ bs

/-- `a ≤ b` on strings. -/
def leStr (a b : String) : Bool := leChars a.data b.data

/-- All leading `/` removed (`trim_start_matches('/')`). -/
def stripSlashes (p : String) : String := ⟨p.data.dropWhile (fun c => c = '/')⟩

/-- `Path::parent` as a string operation: drop the last `/`-separated
component (`"/usr/bin/x"` ↦ `"/usr/bin"`, `"/x"` ↦ `""` = the root). -/
def parentDir (p : String) : String :=
  ⟨joinSlash ((splitSep '/' p.data).dropLast)⟩

/-- The chain of ancestors a `fs::create_dir_all` materializes, outermost
first (`"/a/b"` ↦ `["", "/a", "/a/b"]`). -/
def ancestorsOf (d : String) : List String :=
  let parts := splitSep '/' d.data
  (List.range parts.length).map (fun i => ⟨joinSlash (parts.take (i + 1))⟩)

/-- `fs::create_dir_all`: add every missing ancestor. -/
def createDirAll (dirs : List String) (d : String) : List String :=
  dirs ++ (ancestorsOf d).filter (fun a => ¬ (a ∈ dirs))

/-! ## Package records (`package.rs`) -/

/-- `InstalledPackage` (`package.rs`): what `Database::add_package` takes and
`Database::get_package` returns. -/
structure InstalledPackage where
  name : String
  version : String
  release : Nat
  install_date : Int
  size_bytes : Nat
  checksum : String
  spec : String
deriving DecidableEq, Repr

/-- `PackageFile` (`package.rs`): one row of the `files` relation as exposed
by `add_file` / `get_files`. -/
structure PackageFile where
  path : String
  mode : Nat
  owner : String
  group : String
  size_bytes : Nat
  checksum : String
  is_config : Bool
deriving DecidableEq, Repr

/-- `Dependency` (`package.rs`); `dep_type` is carried as its string form. -/
structure Dependency where
  package_id : Nat
  depends_on : String
  constr : String
  dep_type : String
deriving DecidableEq, Repr

/-! ## The package database (`database.rs`), with SQLite semantics -/

/-- A row of the `packages` table: rowid plus the record. -/
structure PackageRow where
  id : Nat
  pkg : InstalledPackage
deriving DecidableEq, Repr

/-- A row of the `files` table. -/
structure FileRow where
  package_id : Nat
  file : PackageFile
deriving DecidableEq, Repr

/-- The database.  `foreignKeys` is the per-connection SQLite
`foreign_keys` flag: the schema's `ON DELETE CASCADE` clauses
(`initialize`, `database.rs` lines 40-124) are enforced only when it is
on.  `nextId` models the rowid allocator backing `last_insert_rowid`. -/
structure Database where
  packages : List PackageRow
  files : List FileRow
  deps : List Dependency
  nextId : Nat
  foreignKeys : Bool
deriving DecidableEq, Repr

namespace Database

/-- Modelled from the spec: the effective SQLite `foreign_keys` default
is fixed by the build configuration (the crate manifest and rusqlite's
bundled-SQLite build flags), which is not under `src/`; `initialize`
itself executes no pragma.  The spec states that the `files` and
`dependencies` foreign keys cascade on package deletion, so the
connection is modelled as enforcing foreign keys (rusqlite's bundled
SQLite is compiled with `SQLITE_DEFAULT_FOREIGN_KEYS=1`) — also the only
configuration under which the engine's own remove-then-reinstall path
can satisfy the `files.path UNIQUE` constraint.  This is the freshly
initialized database `Database::open` produces: empty tables, foreign
keys enforced. -/
def openInit : Database :=
  { packages := [], files := [], deps := [], nextId := 1, foreignKeys := true }

/-- `Database::add_package` (lines 127-145): `INSERT INTO packages ...`;
fails (`None`) on the `name UNIQUE` constraint; otherwise returns
`last_insert_rowid`. -/
def add_package (db : Database) (pkg : InstalledPackage) : Option (Nat × Database) :=
  if db.packages.any (fun r => r.pkg.name = pkg.name) then
    none
  else
    some (db.nextId,
      { db with packages := db.packages ++ [⟨db.nextId, pkg⟩], nextId := db.nextId + 1 })

/-- `Database::remove_package` (lines 148-155): `DELETE FROM packages WHERE
name = ?1`, returning whether any row was deleted.  The `files` and
`dependencies` rows cascade only when `foreignKeys` is on (SQLite
semantics of the schema of `initialize`, lines 56-77). -/
def remove_package (db : Database) (name : String) : Bool × Database :=
  let removedIds := (db.packages.filter (fun r => r.pkg.name = name)).map (fun r => r.id)
  let hit := db.packages.any (fun r => r.pkg.name = name)
  let packages := db.packages.filter (fun r => ¬ (r.pkg.name = name))
  if db.foreignKeys then
    (hit, { db with
      packages := packages,
      files := db.files.filter (fun f => ¬ (f.package_id ∈ removedIds)),
      deps := db.deps.filter (fun d => ¬ (d.package_id ∈ removedIds)) })
  else
    (hit, { db with packages := packages })

/-- `Database::get_package` (lines 158-179). -/
def get_package (db : Database) (name : String) : Option InstalledPackage :=
  (db.packages.find? (fun r => r.pkg.name = name)).map (fun r => r.pkg)

/-- `Database::add_file` (lines 205-224): `INSERT INTO files ...`; fails on
the `path UNIQUE` constraint. -/
def add_file (db : Database) (package_id : Nat) (f : PackageFile) : Option Database :=
  if db.files.any (fun r => r.file.path = f.path) then
    none
  else
    some { db with files := db.files ++ [⟨package_id, f⟩] }

/-- Insertion sort key step for `ORDER BY f.path`. -/
def insertByPath (f : PackageFile) : List PackageFile → List PackageFile
  | [] => [f]
  | g :: rest => if leStr f.path g.path then f :: g :: rest else g :: insertByPath f rest

/-- `ORDER BY f.path`. -/
def sortByPath : List PackageFile → List PackageFile
  | [] => []
  | f :: rest => insertByPath f (sortByPath rest)

/-- `Database::get_files` (lines 227-252): files joined with packages on
`package_id = id` filtered by package name, ordered by path. -/
def get_files (db : Database) (name : String) : List PackageFile :=
  sortByPath ((db.files.filter (fun f =>
    (db.packages.find? (fun r => r.id = f.package_id)).any (fun r => r.pkg.name = name))).map
      (fun f => f.file))

/-- `Database::file_owner` (lines 255-272): name of the package owning a
path, through the `files`-`packages` join; an orphaned `files` row (its
`package_id` matching no package) joins nothing. -/
def file_owner (db : Database) (path : String) : Option String :=
  (db.files.filter (fun f => f.file.path = path)).findSome? (fun f =>
    (db.packages.find? (fun r => r.id = f.package_id)).map (fun r => r.pkg.name))

/-- `Database::add_dependency` (lines 275-290). -/
def add_dependency (db : Database) (dep : Dependency) : Database :=
  { db with deps := db.deps ++ [dep] }

end Database

/-! ## Archives (`archive.rs` interface as used by `transaction.rs`)

`PackageArchiveReader` itself is not part of the claims; an opened archive
is the tuple of what `read_info`, `read_files`, `read_scripts` and
`extract_data` yield: metadata, the file manifest, the optional script
bundle, and the extracted payload (file contents plus payload
directories). -/

/-- One manifest entry (`file_entry` fields used in `transaction.rs`). -/
structure FileEntry where
  path : String
  mode : Nat
  size : Nat
  sha256 : String
  is_config : Bool
deriving DecidableEq, Repr

/-- Archive metadata (`info` fields used in `transaction.rs`). -/
structure ArchiveInfo where
  name : String
  version : String
  release : Nat
  installed_size : Nat
  depends : List (String × String)
deriving DecidableEq, Repr

/-- `InstallScripts` (`archive.rs`): the six lifecycle hooks. -/
structure InstallScripts where
  pre_install : String
  post_install : String
  pre_remove : String
  post_remove : String
  pre_upgrade : String
  post_upgrade : String
deriving DecidableEq, Repr

/-- An opened package archive. -/
structure Archive where
  info : ArchiveInfo
  files : List FileEntry
  scripts : Option InstallScripts
  /-- Extracted payload: content by manifest path. -/
  data : FS
  /-- Manifest paths whose extracted payload is a directory
  (`src.is_dir()`). -/
  dataDirs : List String
deriving DecidableEq, Repr

/-! ## Transaction engine types (`transaction.rs`) -/

/-- `TransactionState` (lines 18-30). -/
inductive TransactionState where
  | Pending
  | InProgress
  | Completed
  | RolledBack
  | Failed
deriving DecidableEq, Repr

/-- `Operation` (lines 33-52).  Archives are referenced by path, as in the
source; the environment resolves a path to its content. -/
inductive Operation where
  | install (package version archive_path : String)
  | remove (package : String)
  | upgrade (package old_version new_version archive_path : String)
deriving DecidableEq, Repr

/-- `JournalEntry` (lines 64-79).  `DbPackageRemoved` carries
`toml::to_string` of the record; toml round-trips, so the model carries
the record itself. -/
inductive JournalEntry where
  | fileCreated (path : String)
  | fileRemoved (path backup : String)
  | fileModified (path backup : String)
  | dirCreated (path : String)
  | dbPackageAdded (package : String)
  | dbPackageRemoved (package : String) (backup_data : InstalledPackage)
deriving DecidableEq, Repr

/-- Observable events of a run: hook executions and mutations. -/
inductive Event where
  | hookRun (pkg script : String)
  | fileWritten (path : String)
  | fileDeleted (path : String)
  | dirMade (path : String)
  | dbAdded (pkg : String)
  | dbRemoved (pkg : String)
deriving DecidableEq, Repr

/-- Errors of the engine (the `anyhow` messages, by kind, keeping the data
the message interpolates). -/
inductive TxError where
  | alreadyExecuted (state : TransactionState)
  | archiveOpen (path : String)
  | scriptFailed (pkg script : String)
  | fileConflict (path owner : String)
  | copyFailed (src dest : String)
  | removeFailed (path : String)
  | dbUniqueViolation
  | notInstalled (pkg : String)
deriving DecidableEq, Repr

/-- The environment: which fallible calls fail.  `readArchive` resolves an
archive path (`PackageArchiveReader::open` fails when `none`);
`copyFails`/`removeFails` decide `fs::copy`/`fs::remove_file` outcomes
(`std::io` errors); `scriptFails` decides whether a lifecycle script exits
nonzero. -/
structure FsEnv where
  readArchive : String → Option Archive
  copyFails : String → String → Bool
  removeFails : String → Bool
  scriptFails : String → String → Bool

/-- An environment in which every filesystem call and script succeeds. -/
def FsEnv.reliable (ra : String → Option Archive) : FsEnv :=
  { readArchive := ra
    copyFails := fun _ _ => false
    removeFails := fun _ => false
    scriptFails := fun _ _ => false }

/-- Mutable world of a transaction, with the transaction root at `/` so a
manifest path is also its destination path (`root.join(path
.trim_start_matches('/'))` is the path itself).

`fs`/`dirs`: live root filesystem (file contents; directory set, the root
directory being `""`).  `backups`: the per-transaction backup tree under
`<tx_dir>/backup/` (the "modulo the transaction directory" part of the
spec).  `scripts`: the persisted script store
`var/lib/rookpkg/scripts/<pkg>/<script>.sh`.  `journal`: in-memory
journal; `diskJournal`: content of `<tx_dir>/journal.toml`. -/
structure Sys where
  fs : FS
  dirs : List String
  backups : FS
  scripts : List (String × String × String)
  db : Database
  journal : List JournalEntry
  diskJournal : List JournalEntry
deriving DecidableEq, Repr

/-- Result of a fallible step: state reached, events emitted, and the
error (if any) that `?` propagates. -/
structure Out where
  sys : Sys
  events : List Event
  err : Option TxError
deriving DecidableEq, Repr

/-- A successful no-event step. -/
def stepOk (s : Sys) : Out := ⟨s, [], none⟩

/-- Sequencing: `?`-propagation. -/
def Out.then (o : Out) (f : Sys → Out) : Out :=
  match o.err with
  | some _ => o
  | none =>
    let o2 := f o.sys
    ⟨o2.sys, o.events ++ o2.events, o2.err⟩

/-- Backup destination inside the transaction directory:
`<tx_dir>/backup/<pkg>/<path with leading slashes stripped>`. -/
def backupPath (pkg p : String) : String :=
  "backup/" ++ pkg ++ "/" ++ stripSlashes p

/-! ## Hook scripts and the persisted script store -/

/-- `Transaction::run_script` (lines 862-922): an empty-after-trim script
is a silent no-op; otherwise the script is materialized under the
transaction directory and executed — an external process, modelled as an
emitted event; a nonzero exit becomes an error. -/
def runScript (env : FsEnv) (pkg scriptName content : String) (s : Sys) : Out :=
  if trimIsEmpty content then stepOk s
  else if env.scriptFails pkg scriptName then
    ⟨s, [.hookRun pkg scriptName], some (.scriptFailed pkg scriptName)⟩
  else
    ⟨s, [.hookRun pkg scriptName], none⟩

/-- The `if let Some(..) = .. { if !script.is_empty() { run_script } }`
pattern shared by every hook call site. -/
def hookIfSome (env : FsEnv) (pkg scriptName : String) (content : Option String)
    (s : Sys) : Out :=
  match content with
  | some script => if ¬ strIsEmpty script then runScript env pkg scriptName script s else stepOk s
  | none => stepOk s

/-- Write one entry of the script store. -/
def scriptsSet (store : List (String × String × String)) (pkg name content : String) :
    List (String × String × String) :=
  (pkg, name, content) :: store.filter (fun e => ¬ (e.1 = pkg ∧ e.2.1 = name))

/-- Read one entry of the script store. -/
def scriptsGet (store : List (String × String × String)) (pkg name : String) :
    Option String :=
  (store.find? (fun e => e.1 = pkg ∧ e.2.1 = name)).map (fun e => e.2.2)

/-- `Transaction::save_package_scripts` (lines 394-424): each non-empty
script is written to `var/lib/rookpkg/scripts/<pkg>/<name>.sh`. -/
def savePackageScripts (pkg : String) (sc : InstallScripts) (s : Sys) : Sys :=
  let st := s.scripts
  let st := if ¬ strIsEmpty sc.pre_install then scriptsSet st pkg "pre_install" sc.pre_install else st
  let st := if ¬ strIsEmpty sc.post_install then scriptsSet st pkg "post_install" sc.post_install else st
  let st := if ¬ strIsEmpty sc.pre_remove then scriptsSet st pkg "pre_remove" sc.pre_remove else st
  let st := if ¬ strIsEmpty sc.post_remove then scriptsSet st pkg "post_remove" sc.post_remove else st
  let st := if ¬ strIsEmpty sc.pre_upgrade then scriptsSet st pkg "pre_upgrade" sc.pre_upgrade else st
  let st := if ¬ strIsEmpty sc.post_upgrade then scriptsSet st pkg "post_upgrade" sc.post_upgrade else st
  { s with scripts := st }

/-- `Transaction::load_package_script` (lines 427-434). -/
def loadPackageScript (s : Sys) (pkg name : String) : Option String :=
  scriptsGet s.scripts pkg name

/-- `Transaction::remove_package_scripts` (lines 437-443). -/
def removePackageScripts (pkg : String) (s : Sys) : Sys :=
  { s with scripts := s.scripts.filter (fun e => ¬ (e.1 = pkg)) }

/-- `Transaction::save_journal` (lines 848-853): one direct `fs::write` of
the serialized journal onto `<tx_dir>/journal.toml`. -/
def saveJournal (s : Sys) : Sys :=
  { s with diskJournal := s.journal }

/-! ## Install (`Transaction::do_install`, lines 259-391, and
`do_install_for_upgrade`, lines 566-682) -/

/-- The record `do_install` inserts (lines 337-345); `install_date` is the
wall clock, fixed at 0 here (time is outside the model); checksum and
spec are left empty by the source (its TODOs). -/
def instRecord (info : ArchiveInfo) : InstalledPackage :=
  { name := info.name, version := info.version, release := info.release
    install_date := 0, size_bytes := info.installed_size
    checksum := "", spec := "" }

/-- Conflict scan (lines 274-284): first manifest path owned by a
different package, with its owner. -/
def conflictCheck (db : Database) (name : String) : List FileEntry → Option (String × String)
  | [] => none
  | f :: rest =>
    match db.file_owner f.path with
    | some owner =>
      if owner ≠ name then some (f.path, owner) else conflictCheck db name rest
    | none => conflictCheck db name rest

/-- Lines 300-310: back an existing destination up into the transaction
backup tree and journal `FileModified`; `dest.exists()` also holds for a
directory, on which `fs::copy` then fails. -/
def installBackupStep (env : FsEnv) (arch : Archive) (entry : FileEntry) (s : Sys) : Out :=
  match s.fs.get entry.path with
  | some c =>
    let b := backupPath arch.info.name entry.path
    if env.copyFails entry.path b then ⟨s, [], some (.copyFailed entry.path b)⟩
    else
      stepOk { s with backups := s.backups.set b c
                      journal := s.journal ++ [.fileModified entry.path b] }
  | none =>
    if entry.path ∈ s.dirs then
      ⟨s, [], some (.copyFailed entry.path (backupPath arch.info.name entry.path))⟩
    else stepOk s

/-- Lines 313-320: create a missing parent directory, journaling
`DirCreated` for it. -/
def installParentStep (entry : FileEntry) (s : Sys) : Out :=
  let parent := parentDir entry.path
  if parent ∈ s.dirs ∨ s.fs.get parent ≠ none then stepOk s
  else
    ⟨{ s with dirs := createDirAll s.dirs parent
              journal := s.journal ++ [.dirCreated parent] }, [], none⟩

/-- Lines 323-333: copy the staged entry — a payload directory, a payload
file, or a silently skipped missing source. -/
def installCopyStep (env : FsEnv) (arch : Archive) (entry : FileEntry) (s : Sys) : Out :=
  if entry.path ∈ arch.dataDirs then
    (if ¬ (s.fs.get entry.path ≠ none ∨ entry.path ∈ s.dirs) then
      ⟨{ s with dirs := createDirAll s.dirs entry.path
                journal := s.journal ++ [.dirCreated entry.path] }, [.dirMade entry.path], none⟩
    else stepOk s)
  else
    match arch.data.get entry.path with
    | some c =>
      if env.copyFails entry.path entry.path then ⟨s, [], some (.copyFailed entry.path entry.path)⟩
      else
        ⟨{ s with fs := s.fs.set entry.path c
                  journal := s.journal ++ [.fileCreated entry.path] }, [.fileWritten entry.path], none⟩
    | none => stepOk s

/-- The per-entry install loop (lines 295-334). -/
def installFiles (env : FsEnv) (arch : Archive) : List FileEntry → Sys → Out
  | [], s => stepOk s
  | entry :: rest, s =>
    (installBackupStep env arch entry s).then fun s =>
    (installParentStep entry s).then fun s =>
    (installCopyStep env arch entry s).then fun s =>
    installFiles env arch rest s

/-- The file-row loop (lines 352-363). -/
def addFiles (pkgId : Nat) : List FileEntry → Sys → Out
  | [], s => stepOk s
  | f :: rest, s =>
    let pf : PackageFile :=
      { path := f.path, mode := f.mode, owner := "root", group := "root"
        size_bytes := f.size, checksum := f.sha256, is_config := f.is_config }
    match s.db.add_file pkgId pf with
    | none => ⟨s, [], some .dbUniqueViolation⟩
    | some db2 => addFiles pkgId rest { s with db := db2 }

/-- The dependency-row loop (lines 366-374). -/
def addDeps (pkgId : Nat) (deps : List (String × String)) (s : Sys) : Sys :=
  deps.foldl
    (fun s d =>
      { s with db := Database.add_dependency s.db ⟨pkgId, d.1, d.2, "runtime"⟩ })
    s

/-- Shared tail of both install variants, from the database insert on
(lines 336-379 = lines 635-678): insert package row (journaling
`DbPackageAdded`), file rows, dependency rows, persist the scripts. -/
def installDbPhase (arch : Archive) (s : Sys) : Out :=
  match s.db.add_package (instRecord arch.info) with
  | none => ⟨s, [], some .dbUniqueViolation⟩
  | some (pkgId, db2) =>
    let s := { s with db := db2, journal := s.journal ++ [.dbPackageAdded arch.info.name] }
    (⟨s, [.dbAdded arch.info.name], none⟩ : Out).then fun s =>
    (addFiles pkgId arch.files s).then fun s =>
    let s := addDeps pkgId arch.info.depends s
    let s := match arch.scripts with
      | some sc => savePackageScripts arch.info.name sc s
      | none => s
    stepOk s

/-- `Transaction::do_install` (lines 259-391). -/
def doInstall (env : FsEnv) (arch : Archive) (s : Sys) : Out :=
  -- pre_install hook (lines 266-271)
  (hookIfSome env arch.info.name "pre_install"
      (arch.scripts.map (fun sc => sc.pre_install)) s).then fun s =>
  -- file-conflict check (lines 274-284)
  ((match conflictCheck s.db arch.info.name arch.files with
    | some (p, owner) => ⟨s, [], some (.fileConflict p owner)⟩
    | none => stepOk s) : Out).then fun s =>
  -- backup dir + extraction into the staging tree (lines 287-292) touch
  -- only the transaction directory; `arch.data` is the staging tree.
  (installFiles env arch arch.files s).then fun s =>
  (installDbPhase arch s).then fun s =>
  -- post_install hook (lines 382-387)
  (hookIfSome env arch.info.name "post_install"
      (arch.scripts.map (fun sc => sc.post_install)) s).then fun s =>
  stepOk (saveJournal s)

/-- `Transaction::do_install_for_upgrade` (lines 566-682): identical to
`do_install` except that neither install hook runs. -/
def doInstallForUpgradeCore (env : FsEnv) (arch : Archive) (s : Sys) : Out :=
  ((match conflictCheck s.db arch.info.name arch.files with
    | some (p, owner) => ⟨s, [], some (.fileConflict p owner)⟩
    | none => stepOk s) : Out).then fun s =>
  (installFiles env arch arch.files s).then fun s =>
  (installDbPhase arch s).then fun s =>
  stepOk (saveJournal s)

/-- `do_install_for_upgrade` re-opens the archive at its path (line 567). -/
def doInstallForUpgrade (env : FsEnv) (archivePath : String) (s : Sys) : Out :=
  match env.readArchive archivePath with
  | none => ⟨s, [], some (.archiveOpen archivePath)⟩
  | some arch => doInstallForUpgradeCore env arch s

/-! ## Remove (`Transaction::do_remove`, lines 685-784, and
`do_remove_for_upgrade`, lines 480-563) -/

/-- Insertion sort on strings (`Vec::sort` on paths). -/
def insertString (x : String) : List String → List String
  | [] => [x]
  | y :: rest => if leStr x y then x :: y :: rest else y :: insertString x rest

/-- Ascending `Vec::sort`. -/
def sortStrings : List String → List String
  | [] => []
  | x :: rest => insertString x (sortStrings rest)

/-- The hard-coded protected directory set (lines 747-754 = 534-541),
resolved against the root `/`; the root directory is represented as `""`
(so `Path::parent` of a top-level path lands in the set). -/
def protectedDirs : List String :=
  ["", "/bin", "/etc", "/lib", "/lib64", "/opt", "/root", "/sbin",
   "/usr", "/usr/bin", "/usr/lib", "/usr/lib64", "/usr/sbin",
   "/usr/share", "/usr/include", "/var", "/var/lib", "/var/log"]

/-- `fs::read_dir(dir)?.next().is_none()`: the directory holds no file and
no other directory. -/
def dirIsEmpty (s : Sys) (d : String) : Bool :=
  ¬ (List.any s.fs (fun e => strStartsWith (d ++ "/") e.1)) &&
  ¬ (s.dirs.any (fun d2 => ¬ (d2 = d) && strStartsWith (d ++ "/") d2))

/-- The file-removal loop of both remove variants (lines 508-531 =
721-744): for each path that is a file, copy it to the backup tree,
unlink it, journal `FileRemoved`, and note its parent directory for the
cleanup pass.  Returns the collected parent directories alongside. -/
def removeFilesLoop (env : FsEnv) (pkg : String) :
    List String → Sys → Out × List String
  | [], s => (stepOk s, [])
  | p :: rest, s =>
    match s.fs.get p with
    | some c =>
      let b := backupPath pkg p
      if env.copyFails p b then ((⟨s, [], some (.copyFailed p b)⟩ : Out), [])
      else
        let s := { s with backups := s.backups.set b c }
        if env.removeFails p then ((⟨s, [], some (.removeFailed p)⟩ : Out), [])
        else
          let s := { s with fs := s.fs.del p, journal := s.journal ++ [.fileRemoved p b] }
          let (o, ds) := removeFilesLoop env pkg rest s
          ((⟨o.sys, .fileDeleted p :: o.events, o.err⟩ : Out), parentDir p :: ds)
    | none => removeFilesLoop env pkg rest s

/-- The empty-directory cleanup pass (lines 534-553 = 747-766): remove
each collected directory when it is not protected, still a directory, and
empty; failures are ignored. -/
def dirCleanup : List String → Sys → Sys
  | [], s => s
  | d :: rest, s =>
    let s :=
      if ¬ (d ∈ protectedDirs) ∧ d ∈ s.dirs then
        if dirIsEmpty s d then { s with dirs := s.dirs.filter (fun d2 => ¬ (d2 = d)) } else s
      else s
    dirCleanup rest s

/-- Shared middle of both remove variants: journal the serialized record,
remove the files (reverse path order), clean up empty directories, delete
the database row. -/
def removeCore (env : FsEnv) (pkg : String) (pkgRec : InstalledPackage) (s : Sys) : Out :=
  -- Backup package data into the journal (lines 493-497 = 706-710).
  let s := { s with journal := s.journal ++ [.dbPackageRemoved pkg pkgRec] }
  -- Files in reverse sorted order (lines 499-506 = 712-719).
  let filePaths := (s.db.get_files pkg).map (fun f => f.path)
  let ordered := (sortStrings filePaths).reverse
  let (o, dirsToCheck) := removeFilesLoop env pkg ordered s
  o.then fun s =>
  -- Empty-directory cleanup on the deduplicated, reverse-sorted parent
  -- set (lines 543-553 = 756-766).
  let s := dirCleanup ((sortStrings dirsToCheck.dedup).reverse) s
  -- DELETE FROM packages (line 556 = 769); the returned flag is dropped.
  let s := { s with db := (s.db.remove_package pkg).2 }
  (⟨s, [.dbRemoved pkg], none⟩ : Out)

/-- `Transaction::do_remove` (lines 685-784). -/
def doRemove (env : FsEnv) (pkg : String) (s : Sys) : Out :=
  match s.db.get_package pkg with
  | none => ⟨s, [], some (.notInstalled pkg)⟩
  | some pkgRec =>
    -- pre_remove hook (lines 694-699)
    (hookIfSome env pkg "pre_remove" (loadPackageScript s pkg "pre_remove") s).then fun s =>
    (removeCore env pkg pkgRec s).then fun s =>
    -- post_remove hook (lines 772-777)
    (hookIfSome env pkg "post_remove" (loadPackageScript s pkg "post_remove") s).then fun s =>
    -- remove saved scripts, then save_journal (lines 780-782)
    stepOk (saveJournal (removePackageScripts pkg s))

/-- `Transaction::do_remove_for_upgrade` (lines 480-563): identical to
`do_remove` except that neither remove hook runs. -/
def doRemoveForUpgrade (env : FsEnv) (pkg : String) (s : Sys) : Out :=
  match s.db.get_package pkg with
  | none => ⟨s, [], some (.notInstalled pkg)⟩
  | some pkgRec =>
    (removeCore env pkg pkgRec s).then fun s =>
    -- remove saved scripts, then save_journal (lines 559-561)
    stepOk (saveJournal (removePackageScripts pkg s))

/-! ## Upgrade (`Transaction::do_upgrade`, lines 446-477) -/

/-- `Transaction::do_upgrade`: the OLD package's persisted `pre_upgrade`
hook, then remove-without-hooks, then install-without-hooks, then the NEW
archive's `post_upgrade` hook. -/
def doUpgrade (env : FsEnv) (pkg archivePath : String) (s : Sys) : Out :=
  -- pre_upgrade from the existing installation (lines 448-456)
  (hookIfSome env pkg "pre_upgrade" (loadPackageScript s pkg "pre_upgrade") s).then fun s =>
  -- open the new archive for its scripts (lines 459-460)
  match env.readArchive archivePath with
  | none => ⟨s, [], some (.archiveOpen archivePath)⟩
  | some reader =>
    let newScripts := reader.scripts
    (doRemoveForUpgrade env pkg s).then fun s =>
    (doInstallForUpgrade env archivePath s).then fun s =>
    -- post_upgrade from the NEW package (lines 469-474)
    hookIfSome env pkg "post_upgrade" (newScripts.map (fun sc => sc.post_upgrade)) s

/-! ## Rollback (`Transaction::rollback`, lines 787-832)

Each inverse step discards its own error with `.ok()`; the discarded
error messages are collected as the second component (they are not
propagated anywhere by the source).  The body has a single return point,
`Ok(())`. -/

/-- One journal entry undone (the match arms of lines 791-829). -/
def rollbackStep (env : FsEnv) (s : Sys) : JournalEntry → Sys × List String
  | .fileCreated p =>
    -- `if path.exists() { fs::remove_file(path).ok(); }`
    match s.fs.get p with
    | some _ =>
      if env.removeFails p then (s, ["remove_file failed: " ++ p])
      else ({ s with fs := s.fs.del p }, [])
    | none =>
      if p ∈ s.dirs then (s, ["remove_file failed: " ++ p]) else (s, [])
  | .fileRemoved p b =>
    match s.backups.get b with
    | some c =>
      -- `create_dir_all(parent).ok()` then `fs::copy(backup, path).ok()`
      let s := { s with dirs := createDirAll s.dirs (parentDir p) }
      if env.copyFails b p then (s, ["copy failed: " ++ b])
      else ({ s with fs := s.fs.set p c }, [])
    | none => (s, [])
  | .fileModified p b =>
    match s.backups.get b with
    | some c =>
      if env.copyFails b p then (s, ["copy failed: " ++ b])
      else ({ s with fs := s.fs.set p c }, [])
    | none => (s, [])
  | .dirCreated p =>
    -- `if path.is_dir() { fs::remove_dir(path).ok(); }`; `remove_dir`
    -- fails on a non-empty directory.
    if p ∈ s.dirs then
      if dirIsEmpty s p then ({ s with dirs := s.dirs.filter (fun d2 => ¬ (d2 = p)) }, [])
      else (s, ["remove_dir failed: " ++ p])
    else (s, [])
  | .dbPackageAdded n =>
    -- `self.db.remove_package(package).ok()`
    ({ s with db := (s.db.remove_package n).2 }, [])
  | .dbPackageRemoved n data =>
    -- `if let Ok(pkg) = toml::from_str(..) { self.db.add_package(&pkg).ok(); }`
    match s.db.add_package data with
    | some (_, db2) => ({ s with db := db2 }, [])
    | none => (s, ["add_package failed: " ++ n])

/-- The reversed-journal walk. -/
def rollbackGo (env : FsEnv) : List JournalEntry → Sys → Sys × List String
  | [], s => (s, [])
  | e :: rest, s =>
    let r := rollbackStep env s e
    let r2 := rollbackGo env rest r.1
    (r2.1, r.2 ++ r2.2)

/-- `Transaction::rollback`: walk the journal in reverse; the function
value is the Rust `Result`, whose only return is `Ok(())`. -/
def rollback (env : FsEnv) (s : Sys) : Sys × List String × Except String Unit :=
  let r := rollbackGo env s.journal.reverse s
  (r.1, r.2, Except.ok ())

/-! ## Execution (`Transaction::execute`, lines 194-228) -/

/-- A transaction: state, queued operations, and the world it acts on. -/
structure Tx where
  state : TransactionState
  operations : List Operation
  sys : Sys
deriving DecidableEq, Repr

/-- `Transaction::execute_operation` (lines 231-256). -/
def executeOperation (env : FsEnv) (op : Operation) (s : Sys) : Out :=
  match op with
  | .install _pkg _ver archivePath =>
    match env.readArchive archivePath with
    | none => ⟨s, [], some (.archiveOpen archivePath)⟩
    | some arch => doInstall env arch s
  | .remove pkg => doRemove env pkg s
  | .upgrade pkg _old _new archivePath => doUpgrade env pkg archivePath s

/-- The operation loop of `execute` (lines 203-221 up to the first
failure). -/
def executeOps (env : FsEnv) : List Operation → Sys → Out
  | [], s => stepOk s
  | op :: rest, s => (executeOperation env op s).then (executeOps env rest)

/-- What `execute` leaves behind: the transaction, the emitted events, the
error messages rollback discarded, and the Rust return value. -/
structure ExecResult where
  tx : Tx
  events : List Event
  rollbackErrors : List String
  result : Except TxError Unit
deriving Repr

/-- `Transaction::execute` (lines 194-228): refuse any state but
`Pending`; run the operations; on failure roll back, reaching
`RolledBack` when rollback returns `Ok` and `Failed` when it returns
`Err`; on success reach `Completed` and clean up the transaction
directory (deleting the backup tree and the journal file). -/
def Tx.execute (env : FsEnv) (tx : Tx) : ExecResult :=
  if tx.state ≠ TransactionState.Pending then
    ⟨tx, [], [], .error (.alreadyExecuted tx.state)⟩
  else
    let o := executeOps env tx.operations tx.sys
    match o.err with
    | none =>
      ⟨{ tx with state := .Completed
                 sys := { o.sys with backups := FS.empty, diskJournal := [] } },
        o.events, [], .ok ()⟩
    | some e =>
      let r := rollback env o.sys
      match r.2.2 with
      | .ok _ => ⟨{ tx with state := .RolledBack, sys := r.1 }, o.events, r.2.1, .error e⟩
      | .error _ => ⟨{ tx with state := .Failed, sys := r.1 }, o.events, r.2.1, .error e⟩

/-! ## The journal save path at syscall granularity (for the durability
claim about `save_journal`) -/

/-- Filesystem calls a persist can issue. -/
inductive FsAction where
  | write (path content : String)
  | fsync (path : String)
  | rename (src dest : String)
deriving DecidableEq, Repr

/-- Stands for `toml::to_string` of one journal entry. -/
def encodeJournalEntry : JournalEntry → String
  | .fileCreated p => "[[FileCreated]] path = " ++ p
  | .fileRemoved p b => "[[FileRemoved]] path = " ++ p ++ " backup = " ++ b
  | .fileModified p b => "[[FileModified]] path = " ++ p ++ " backup = " ++ b
  | .dirCreated p => "[[DirCreated]] path = " ++ p
  | .dbPackageAdded n => "[[DbPackageAdded]] package = " ++ n
  | .dbPackageRemoved n d => "[[DbPackageRemoved]] package = " ++ n ++ " backup_data = " ++ d.name

/-- Stands for `toml::to_string` of the journal. -/
def encodeJournal (j : List JournalEntry) : String :=
  String.intercalate "\n" (j.map encodeJournalEntry)

/-- The exact filesystem calls `Transaction::save_journal` (lines 848-853)
issues: `fs::write(tx_dir.join("journal.toml"), toml::to_string(&journal))`
— one direct write onto the journal path. -/
def saveJournalActions (txDir : String) (j : List JournalEntry) : List FsAction :=
  [FsAction.write (txDir ++ "/journal.toml") (encodeJournal j)]

/-! ## Repository synchronization (`repository.rs`) -/

/-- `HybridSignature` as `update_repo_by_index` handles it: an opaque
parsed envelope. -/
structure HybridSignature where
  envelope : String
deriving DecidableEq, Repr

/-- `RepoSigningInfo` (`repository.rs` lines 73-80). -/
structure RepoSigningInfo where
  fingerprint : String
  public_key : Option String
deriving DecidableEq, Repr

/-- `RepositoryInfo` (lines 54-66), sans timestamps. -/
structure RepositoryInfo where
  name : String
  description : String
  version : Nat
deriving DecidableEq, Repr

/-- `RepoMetadata` (lines 42-51). -/
structure RepoMetadata where
  repository : RepositoryInfo
  signing : RepoSigningInfo
deriving DecidableEq, Repr

/-- A repository index entry (`PackageEntry`, lines 106-154; the fields
the claims touch). -/
structure PackageEntry where
  name : String
  version : String
  release : Nat
  depends : List String
deriving DecidableEq, Repr

/-- `PackageIndex` (lines 164-177); `generated` is the timestamp. -/
structure PackageIndex where
  version : Nat
  generated : Int
  repository : String
  count : Nat
  packages : List PackageEntry
deriving DecidableEq, Repr

/-- `LoadedPublicKey` as the update path uses it. -/
structure LoadedPublicKey where
  fingerprint : String
deriving DecidableEq, Repr

/-- `Repository` (lines 221-239) plus the two files of its cache
directory (`repo.toml`, `packages.json`) as written by `save_cache`
(lines 288-302). -/
structure Repo where
  name : String
  url : String
  enabled : Bool
  priority : Nat
  metadata : Option RepoMetadata
  index : Option PackageIndex
  publicKey : Option LoadedPublicKey
  cacheMetadata : Option RepoMetadata
  cacheIndex : Option PackageIndex
deriving DecidableEq, Repr

/-- HTTP responses one repository's update sees (fetch + body-text; a
failed status or parse is the `Except` error, as the source folds both
into early bails). -/
structure RepoResponses where
  /-- Fetch + `toml::from_str` of `repo.toml` (lines 429-439). -/
  metadataResult : Except String RepoMetadata
  /-- Fetch of the raw `packages.json` bytes (lines 442-451). -/
  indexResult : Except String String
  /-- Body of `packages.json.sig` iff its HTTP status was a success
  (line 454-456). -/
  sigResponse : Option String

/-- Environment of an update run: network responses per repository name,
parsers, the key store, the cryptographic check, and the
`allow_untrusted` configuration flag. -/
structure UpdateEnv where
  fetch : String → RepoResponses
  parseSignature : String → Except String HybridSignature
  parseIndex : String → Except String PackageIndex
  findRepoKey : String → Except String LoadedPublicKey
  verifySignature : LoadedPublicKey → String → HybridSignature → Bool
  allowUntrusted : Bool

/-- `RepoManager::update_repo_by_index` (lines 419-497): fetch metadata,
fetch the index bytes, fetch and verify the signature over those exact
bytes (failing before anything is stored), parse the index, compute
`changed` from the generated timestamp, then update the in-memory repo
and save its cache. -/
def updateRepo (env : UpdateEnv) (repo : Repo) : Except String (Bool × Repo) :=
  let rsp := env.fetch repo.name
  match rsp.metadataResult with
  | .error e => .error e
  | .ok metadata =>
    match rsp.indexResult with
    | .error e => .error e
    | .ok indexContent =>
      let keyStep : Except String (Option LoadedPublicKey) :=
        match rsp.sigResponse with
        | some sigContent =>
          match env.parseSignature sigContent with
          | .error e => .error e
          | .ok signature =>
            match env.findRepoKey metadata.signing.fingerprint with
            | .error e => .error e
            | .ok publicKey =>
              if env.verifySignature publicKey indexContent signature then
                .ok (some publicKey)
              else .error "Package index signature verification failed"
        | none =>
          if ¬ env.allowUntrusted then
            .error "Package index signature not found and untrusted repositories are not allowed"
          else .ok none
      match keyStep with
      | .error e => .error e
      | .ok publicKey =>
        match env.parseIndex indexContent with
        | .error e => .error e
        | .ok index =>
          let changed : Bool :=
            match repo.index with
            | some i => ¬ (i.generated = index.generated)
            | none => true
          .ok (changed,
            { repo with
                metadata := some metadata, index := some index, publicKey := publicKey,
                cacheMetadata := some metadata, cacheIndex := some index })

/-- `UpdateResult` (lines 600-609). -/
structure UpdateResult where
  updated : List String
  unchanged : List String
  failed : List (String × String)
deriving DecidableEq, Repr

/-- `RepoManager::update_all` (lines 387-416): every enabled repository
is attempted in order; a failure is recorded and does not stop the loop;
a disabled repository is skipped and not recorded. -/
def updateAll (env : UpdateEnv) : List Repo → List Repo × UpdateResult
  | [] => ([], ⟨[], [], []⟩)
  | repo :: rest =>
    if repo.enabled then
      match updateRepo env repo with
      | .ok res =>
        let tail := updateAll env rest
        (res.2 :: tail.1,
          if res.1 then { tail.2 with updated := repo.name :: tail.2.updated }
          else { tail.2 with unchanged := repo.name :: tail.2.unchanged })
      | .error e =>
        let tail := updateAll env rest
        (repo :: tail.1, { tail.2 with failed := (repo.name, e) :: tail.2.failed })
    else
      let tail := updateAll env rest
      (repo :: tail.1, tail.2)

/-! ## The already-installed filter of the install command
(`cli/install.rs`, lines 285-312) -/

/-- `VerifiedPackage` as the filter consumes it. -/
structure VerifiedPackage where
  package : PackageEntry
  path : String
deriving DecidableEq, Repr

/-- Lines 286-291: every verified package found in the database, with the
installed version. -/
def alreadyInstalled (db : Database) (verified : List VerifiedPackage) :
    List (String × String) :=
  verified.filterMap (fun v =>
    (db.get_package v.package.name).map (fun ex => (v.package.name, ex.version)))

/-- Lines 293-297: drop every package whose name occurs in
`already_installed` — presence in the database is the only test. -/
def packagesToInstall (db : Database) (verified : List VerifiedPackage) :
    List VerifiedPackage :=
  verified.filter (fun v =>
    ¬ ((alreadyInstalled db verified).any (fun nv => nv.1 = v.package.name)))

/-- Lines 309-312 outcome: nothing new, or the filtered list goes on to
the transaction. -/
inductive InstallFilterOutcome where
  | nothingNew
  | proceed (pkgs : List VerifiedPackage)
deriving DecidableEq, Repr

/-- The decision the install command takes after filtering. -/
def installFilterStep (db : Database) (verified : List VerifiedPackage) :
    InstallFilterOutcome :=
  let pti := packagesToInstall db verified
  if pti.isEmpty then .nothingNew else .proceed pti

/-! ### The claim's resolver-level exclusion test, in the spec's words

The claim says an installed package is excluded *exactly when* its
installed version already satisfies all applicable version constraints.
The following definitions state that test (a version is the dotted
numeral list, a constraint one relational operator and a version) so it
can be compared with what the code does. -/

/-- Digits to a number. -/
def digitsToNat (l : List Char) : Nat :=
  l.foldl (fun n c => n * 10 + (c.toNat - 48)) 0

/-- Dotted numeric version, missing/non-numeric components as 0. -/
def specVersionParts (v : String) : List Nat :=
  (splitSep '.' v.data).map (fun cs =>
    if ¬ cs.isEmpty ∧ cs.all (fun c => c.isDigit) then digitsToNat cs else 0)

/-- Lexicographic comparison, absent components zero (an absent list is
never greater: it reads as all zeros). -/
def specVersionLeParts : List Nat → List Nat → Bool
  | [], _ => true
  | a :: as_, [] => (a :: as_).all (fun x => x = 0)
  | a :: as_, b :: bs =>
    if a < b then true
    else if b < a then false
    else specVersionLeParts as_ bs

/-- `a ≤ b` on version strings. -/
def specVersionLe (a b : String) : Bool :=
  specVersionLeParts (specVersionParts a) (specVersionParts b)

/-- Whitespace trimmed from both ends. -/
def trimChars (l : List Char) : List Char :=
  ((l.dropWhile (fun c => c.isWhitespace)).reverse.dropWhile (fun c => c.isWhitespace)).reverse

/-- Does `installed` satisfy a single relational constraint such as
`">= 2.0"` (the spec's dependency grammar)? -/
def specVersionSatisfies (installed constraint : String) : Bool :=
  let c : String := ⟨trimChars constraint.data⟩
  let rest : Nat → String := fun n => ⟨trimChars (c.data.drop n)⟩
  if c = "*" ∨ strIsEmpty c then true
  else if strStartsWith ">=" c then specVersionLe (rest 2) installed
  else if strStartsWith "<=" c then specVersionLe installed (rest 2)
  else if strStartsWith "!=" c then
    ¬ (specVersionParts installed = specVersionParts (rest 2))
  else if strStartsWith "=" c then
    specVersionParts installed = specVersionParts (rest 1)
  else if strStartsWith ">" c then
    specVersionLe (rest 1) installed &&
      ¬ (specVersionParts installed = specVersionParts (rest 1))
  else if strStartsWith "<" c then
    specVersionLe installed (rest 1) &&
      ¬ (specVersionParts installed = specVersionParts (rest 1))
  else true

/-! ## Concrete instances for witnesses and counterexamples -/

/-- An installed package `foo-1.0-1`. -/
def fooRecord : InstalledPackage :=
  ⟨"foo", "1.0", 1, 0, 10, "", ""⟩

/-- `foo` owns `/usr/bin/x`. -/
def fooFileRow : PackageFile :=
  ⟨"/usr/bin/x", 493, "root", "root", 4, "h1", false⟩

/-- Database after installing `foo`. -/
def dbFoo : Database :=
  ⟨[⟨1, fooRecord⟩], [⟨1, fooFileRow⟩], [], 2, true⟩

/-- World with `foo` installed and its file on disk. -/
def sysFoo : Sys :=
  ⟨[("/usr/bin/x", "foo-bin")], ["", "/usr", "/usr/bin"], [], [], dbFoo, [], []⟩

/-- Environment with no archives and no failures. -/
def envGhost : FsEnv := FsEnv.reliable (fun _ => none)

/-- Remove `foo`, then fail removing a package that is not installed. -/
def txRemoveThenGhost : Tx :=
  ⟨.Pending, [.remove "foo", .remove "ghost"], sysFoo⟩

/-- Archive of a fresh package `a` shipping `/usr/bin/a`. -/
def archA : Archive :=
  ⟨⟨"a", "1.0", 1, 5, []⟩, [⟨"/usr/bin/a", 493, 3, "ha", false⟩], none,
    [("/usr/bin/a", "A-content")], []⟩

/-- Empty world. -/
def sysEmpty : Sys :=
  ⟨[], ["", "/usr", "/usr/bin"], [], [], Database.openInit, [], []⟩

/-- Environment where unlinking `/usr/bin/a` fails (an I/O error during
rollback). -/
def envUnlinkFails : FsEnv :=
  { readArchive := fun p => if p = "a.pkg" then some archA else none
    copyFails := fun _ _ => false
    removeFails := fun p => p == "/usr/bin/a"
    scriptFails := fun _ _ => false }

/-- Install `a`, then fail on a package that is not installed. -/
def txInstallThenGhost : Tx :=
  ⟨.Pending, [.install "a" "1.0" "a.pkg", .remove "ghost"], sysEmpty⟩

/-- Archive of `bar` also shipping `/usr/bin/x` (a file conflict with
`foo`). -/
def archBar : Archive :=
  ⟨⟨"bar", "2.0", 1, 6, []⟩, [⟨"/usr/bin/x", 493, 4, "hb", false⟩], none,
    [("/usr/bin/x", "bar-bin")], []⟩

/-- Environment resolving `bar.pkg`. -/
def envBar : FsEnv := FsEnv.reliable (fun p => if p = "bar.pkg" then some archBar else none)

/-- Install `bar` on the world where `foo` owns `/usr/bin/x`. -/
def txInstallBar : Tx :=
  ⟨.Pending, [.install "bar" "2.0" "bar.pkg"], sysFoo⟩

/-- `foo` owns the config file `/etc/foo.conf` (`is_config` set). -/
def confRow : PackageFile :=
  ⟨"/etc/foo.conf", 420, "root", "root", 7, "hc", true⟩

/-- Database after installing `foo` with its config file. -/
def dbFooConf : Database :=
  ⟨[⟨1, fooRecord⟩], [⟨1, confRow⟩], [], 2, true⟩

/-- World where the user has edited `/etc/foo.conf`. -/
def sysFooConf : Sys :=
  ⟨[("/etc/foo.conf", "edited-by-user")], ["", "/etc"], [], [], dbFooConf, [], []⟩

/-- Archive of `foo-2.0` shipping `/etc/foo.conf` (still `is_config`)
with default content. -/
def archFoo2 : Archive :=
  ⟨⟨"foo", "2.0", 1, 11, []⟩, [⟨"/etc/foo.conf", 420, 7, "hc2", true⟩], none,
    [("/etc/foo.conf", "default-content")], []⟩

/-- Environment resolving `foo2.pkg`. -/
def envFoo2 : FsEnv := FsEnv.reliable (fun p => if p = "foo2.pkg" then some archFoo2 else none)

/-- World with `foo` installed and its `pre_upgrade` script persisted. -/
def sysFooUp : Sys :=
  ⟨[("/usr/bin/x", "foo-bin")], ["", "/usr", "/usr/bin"], [],
    [("foo", "pre_upgrade", "run-pre")], dbFoo, [], []⟩

/-- Script bundle of the new `foo` archive: only `post_upgrade`. -/
def scFoo2 : InstallScripts := ⟨"", "", "", "", "", "run-post"⟩

/-- Archive of `foo-2.0` with a `post_upgrade` hook. -/
def archFoo2b : Archive :=
  ⟨⟨"foo", "2.0", 1, 12, []⟩, [⟨"/usr/bin/x", 493, 4, "h2", false⟩], some scFoo2,
    [("/usr/bin/x", "foo-bin-2")], []⟩

/-- Environment resolving `foo2b.pkg`. -/
def envFoo2b : FsEnv :=
  FsEnv.reliable (fun p => if p = "foo2b.pkg" then some archFoo2b else none)

/-- Repository `core`, nothing cached yet. -/
def repoCore : Repo := ⟨"core", "http://core", true, 1, none, none, none, none, none⟩

/-- Metadata of repository `bad`. -/
def mdBad : RepoMetadata := ⟨⟨"bad", "Bad repo", 1⟩, ⟨"FPB", none⟩⟩

/-- Previously cached index of repository `bad`. -/
def idxBad : PackageIndex := ⟨1, 50, "bad", 1, [⟨"zsh", "5.9", 1, []⟩]⟩

/-- Repository `bad` with a previously cached metadata/index pair. -/
def repoBad : Repo :=
  ⟨"bad", "http://bad", true, 2, some mdBad, some idxBad, none, some mdBad, some idxBad⟩

/-- Metadata of repository `core` as fetched. -/
def mdCore : RepoMetadata := ⟨⟨"core", "Core repo", 1⟩, ⟨"FPC", none⟩⟩

/-- Fresh index of repository `core` as fetched. -/
def idxCore : PackageIndex := ⟨1, 100, "core", 1, [⟨"bash", "5.2", 1, []⟩]⟩

/-- Update environment where `core` fetches and verifies, while the
signature of `bad` fails the cryptographic check. -/
def envUpdate : UpdateEnv :=
  { fetch := fun n =>
      if n = "core" then ⟨.ok mdCore, .ok "IDX-CORE", some "SIG-CORE"⟩
      else ⟨.ok mdBad, .ok "IDX-BAD", some "SIG-BAD"⟩
    parseSignature := fun s => .ok ⟨s⟩
    parseIndex := fun s => if s = "IDX-CORE" then .ok idxCore else .ok idxBad
    findRepoKey := fun f => .ok ⟨f⟩
    verifySignature := fun _ content _ => content = "IDX-CORE"
    allowUntrusted := false }

/-- `lib` installed at version 1.0. -/
def dbLibOld : Database :=
  ⟨[⟨1, ⟨"lib", "1.0", 1, 0, 5, "", ""⟩⟩], [], [], 2, true⟩

/-- The resolver chose `lib-2.1` (e.g. to satisfy a dependency
`lib >= 2.0` of a requested package). -/
def verifiedLib : List VerifiedPackage :=
  [⟨⟨"lib", "2.1", 1, []⟩, "/cache/lib.pkg"⟩]

/-- A transaction that already ran. -/
def txCompleted : Tx := ⟨.Completed, [.remove "foo"], sysFoo⟩

/-! # Composition lemmas for `Out.then` -/

theorem Out.then_of_err {o : Out} (f : Sys → Out) {e : TxError} (h : o.err = some e) :
    o.then f = o := by
  unfold Out.then
  rw [h]

theorem Out.then_of_ok {o : Out} (f : Sys → Out) (h : o.err = none) :
    o.then f = ⟨(f o.sys).sys, o.events ++ (f o.sys).events, (f o.sys).err⟩ := by
  unfold Out.then
  rw [h]

theorem Out.then_err_none {o : Out} {f : Sys → Out} (h : (o.then f).err = none) :
    o.err = none ∧ (f o.sys).err = none := by
  unfold Out.then at h
  cases ho : o.err with
  | none => rw [ho] at h; exact ⟨rfl, h⟩
  | some e => rw [ho] at h; simp at h; rw [ho] at h; exact absurd h (by simp)

theorem Out.then_sys_of_ok {o : Out} {f : Sys → Out} (h : o.err = none) :
    (o.then f).sys = (f o.sys).sys := by
  rw [Out.then_of_ok f h]

/-! # Phase footprint lemmas -/

/-- `run_script` never mutates the world. -/
theorem runScript_sys (env : FsEnv) (pkg n c : String) (s : Sys) :
    (runScript env pkg n c s).sys = s := by
  unfold runScript
  split
  · rfl
  · split <;> rfl

/-- A hook call site never mutates the world. -/
theorem hookIfSome_sys (env : FsEnv) (pkg n : String) (c : Option String) (s : Sys) :
    (hookIfSome env pkg n c s).sys = s := by
  unfold hookIfSome
  cases c with
  | none => rfl
  | some script =>
    simp only []
    split
    · exact runScript_sys env pkg n script s
    · rfl

/-- `saveJournal` touches only the on-disk journal. -/
theorem saveJournal_fields (s : Sys) :
    (saveJournal s).fs = s.fs ∧ (saveJournal s).db = s.db ∧
    (saveJournal s).journal = s.journal ∧ (saveJournal s).backups = s.backups ∧
    (saveJournal s).diskJournal = s.journal := by
  exact ⟨rfl, rfl, rfl, rfl, rfl⟩

/-- The file-row loop touches only the database. -/
theorem addFiles_shape (pkgId : Nat) (l : List FileEntry) (s : Sys) :
    ∃ db2, (addFiles pkgId l s).sys = { s with db := db2 } := by
  induction l generalizing s with
  | nil => exact ⟨s.db, rfl⟩
  | cons f rest ih =>
    cases hadd : s.db.add_file pkgId
        ⟨f.path, f.mode, "root", "root", f.size, f.sha256, f.is_config⟩ with
    | none => exact ⟨s.db, by simp [addFiles, hadd]⟩
    | some db2 =>
      obtain ⟨db3, h3⟩ := ih { s with db := db2 }
      refine ⟨db3, ?_⟩
      simp only [addFiles, hadd]
      exact h3

/-- The dependency-row loop touches only the database. -/
theorem addDeps_shape (pkgId : Nat) (deps : List (String × String)) (s : Sys) :
    ∃ db2, addDeps pkgId deps s = { s with db := db2 } := by
  induction deps generalizing s with
  | nil => exact ⟨s.db, rfl⟩
  | cons d rest ih =>
    unfold addDeps
    simp only [List.foldl_cons]
    obtain ⟨db3, h3⟩ := ih { s with db := Database.add_dependency s.db ⟨pkgId, d.1, d.2, "runtime"⟩ }
    exact ⟨db3, by unfold addDeps at h3; exact h3⟩

/-- Persisting scripts touches only the script store. -/
theorem savePackageScripts_shape (pkg : String) (sc : InstallScripts) (s : Sys) :
    ∃ st, savePackageScripts pkg sc s = { s with scripts := st } := by
  unfold savePackageScripts
  exact ⟨_, rfl⟩

/-- The database phase of install touches only the database, the script
store, and the journal — to which it only appends. -/
theorem installDbPhase_shape (arch : Archive) (s : Sys) :
    ∃ db2 st d, (installDbPhase arch s).sys =
      { s with db := db2, scripts := st, journal := s.journal ++ d } := by
  cases hadd : s.db.add_package (instRecord arch.info) with
  | none => exact ⟨s.db, s.scripts, [], by simp [installDbPhase, hadd]⟩
  | some x =>
    obtain ⟨pkgId, db2⟩ := x
    have hu : installDbPhase arch s =
        (⟨{ s with db := db2, journal := s.journal ++ [.dbPackageAdded arch.info.name] },
          [.dbAdded arch.info.name], none⟩ : Out).then fun u =>
        (addFiles pkgId arch.files u).then fun u =>
        stepOk (match arch.scripts with
          | some sc => savePackageScripts arch.info.name sc (addDeps pkgId arch.info.depends u)
          | none => addDeps pkgId arch.info.depends u) := by
      simp only [installDbPhase, hadd]
    rw [hu, Out.then_of_ok _ rfl]
    set s1 : Sys :=
      { s with db := db2, journal := s.journal ++ [.dbPackageAdded arch.info.name] } with hs1
    obtain ⟨dbA, hA⟩ := addFiles_shape pkgId arch.files s1
    cases haf : (addFiles pkgId arch.files s1).err with
    | some e =>
      rw [Out.then_of_err _ haf]
      exact ⟨dbA, s.scripts, [.dbPackageAdded arch.info.name], by rw [hA]⟩
    | none =>
      rw [Out.then_of_ok _ haf]
      obtain ⟨dbB, hB⟩ := addDeps_shape pkgId arch.info.depends (addFiles pkgId arch.files s1).sys
      cases hsc : arch.scripts with
      | none =>
        refine ⟨dbB, s.scripts, [.dbPackageAdded arch.info.name], ?_⟩
        simp only [stepOk]
        rw [hB, hA]
      | some sc =>
        obtain ⟨stC, hC⟩ := savePackageScripts_shape arch.info.name sc
          (addDeps pkgId arch.info.depends (addFiles pkgId arch.files s1).sys)
        refine ⟨dbB, stC, [.dbPackageAdded arch.info.name], ?_⟩
        simp only [stepOk]
        rw [hC, hB, hA]

theorem installBackupStep_shape (env : FsEnv) (arch : Archive) (entry : FileEntry) (s : Sys) :
    ∃ bk d, (installBackupStep env arch entry s).sys =
      { s with backups := bk, journal := s.journal ++ d } := by
  cases h : s.fs.get entry.path with
  | some c =>
    simp only [installBackupStep, h]
    split
    · exact ⟨s.backups, [], by simp⟩
    · exact ⟨_, [.fileModified entry.path (backupPath arch.info.name entry.path)], rfl⟩
  | none =>
    simp only [installBackupStep, h]
    split
    · exact ⟨s.backups, [], by simp⟩
    · exact ⟨s.backups, [], by simp [stepOk]⟩

theorem installParentStep_shape (entry : FileEntry) (s : Sys) :
    ∃ dirs2 d, (installParentStep entry s).sys =
      { s with dirs := dirs2, journal := s.journal ++ d } := by
  simp only [installParentStep]
  split
  · exact ⟨s.dirs, [], by simp [stepOk]⟩
  · exact ⟨_, [.dirCreated (parentDir entry.path)], rfl⟩

theorem installCopyStep_shape (env : FsEnv) (arch : Archive) (entry : FileEntry) (s : Sys) :
    ∃ fs2 dirs2 d, (installCopyStep env arch entry s).sys =
      { s with fs := fs2, dirs := dirs2, journal := s.journal ++ d } := by
  unfold installCopyStep
  split
  · split
    · exact ⟨s.fs, _, [.dirCreated entry.path], rfl⟩
    · exact ⟨s.fs, s.dirs, [], by simp [stepOk]⟩
  · rename_i hdd
    cases h : arch.data.get entry.path with
    | some c =>
      simp only [h]
      split
      · exact ⟨s.fs, s.dirs, [], by simp⟩
      · exact ⟨_, s.dirs, [.fileCreated entry.path], rfl⟩
    | none =>
      simp only [h]
      exact ⟨s.fs, s.dirs, [], by simp [stepOk]⟩

/-- The install loop mutates only `fs`, `dirs`, `backups`, and the
journal, to which it only appends. -/
theorem installFiles_shape (env : FsEnv) (arch : Archive) (l : List FileEntry) (s : Sys) :
    ∃ fs2 dirs2 bk d, (installFiles env arch l s).sys =
      { s with fs := fs2, dirs := dirs2, backups := bk, journal := s.journal ++ d } := by
  induction l generalizing s with
  | nil => exact ⟨s.fs, s.dirs, s.backups, [], by simp [installFiles, stepOk]⟩
  | cons entry rest ih =>
    show ∃ fs2 dirs2 bk d,
      ((installBackupStep env arch entry s).then fun s =>
        (installParentStep entry s).then fun s =>
        (installCopyStep env arch entry s).then fun s =>
        installFiles env arch rest s).sys = _
    obtain ⟨bk1, d1, h1⟩ := installBackupStep_shape env arch entry s
    cases e1 : (installBackupStep env arch entry s).err with
    | some e =>
      rw [Out.then_of_err _ e1, h1]
      exact ⟨s.fs, s.dirs, bk1, d1, rfl⟩
    | none =>
      rw [Out.then_sys_of_ok e1, h1]
      set s1 : Sys := { s with backups := bk1, journal := s.journal ++ d1 } with hs1
      obtain ⟨dr2, d2, h2⟩ := installParentStep_shape entry s1
      cases e2 : (installParentStep entry s1).err with
      | some e =>
        rw [Out.then_of_err _ e2, h2]
        exact ⟨s.fs, dr2, bk1, d1 ++ d2, by simp⟩
      | none =>
        rw [Out.then_sys_of_ok e2, h2]
        set s2 : Sys := { s with dirs := dr2, backups := bk1, journal := (s.journal ++ d1) ++ d2 }
          with hs2
        obtain ⟨fs3, dr3, d3, h3⟩ := installCopyStep_shape env arch entry s2
        cases e3 : (installCopyStep env arch entry s2).err with
        | some e =>
          rw [Out.then_of_err _ e3, h3]
          exact ⟨fs3, dr3, bk1, d1 ++ d2 ++ d3, by simp⟩
        | none =>
          rw [Out.then_sys_of_ok e3, h3]
          obtain ⟨fs4, dr4, bk4, d4, h4⟩ := ih { s with fs := fs3, dirs := dr3, backups := bk1, journal := ((s.journal ++ d1) ++ d2) ++ d3 }
          rw [h4]
          exact ⟨fs4, dr4, bk4, d1 ++ d2 ++ d3 ++ d4, by simp⟩

/-- The remove loop mutates only `fs`, `backups`, and the journal, to
which it only appends. -/
theorem removeFilesLoop_shape (env : FsEnv) (pkg : String) (l : List String) (s : Sys) :
    ∃ fs2 bk d, (removeFilesLoop env pkg l s).1.sys =
      { s with fs := fs2, backups := bk, journal := s.journal ++ d } := by
  induction l generalizing s with
  | nil => exact ⟨s.fs, s.backups, [], by simp [removeFilesLoop, stepOk]⟩
  | cons p rest ih =>
    cases hg : s.fs.get p with
    | none =>
      simp only [removeFilesLoop, hg]
      exact ih s
    | some c =>
      simp only [removeFilesLoop, hg]
      split
      · exact ⟨s.fs, s.backups, [], by simp⟩
      · split
        · exact ⟨s.fs, s.backups.set (backupPath pkg p) c, [], by simp⟩
        · obtain ⟨fs2, bk2, d2, h2⟩ := ih { s with backups := s.backups.set (backupPath pkg p) c, fs := FS.del s.fs p, journal := s.journal ++ [.fileRemoved p (backupPath pkg p)] }
          refine ⟨fs2, bk2, [.fileRemoved p (backupPath pkg p)] ++ d2, ?_⟩
          simp only []
          rw [h2]
          simp

/-- The cleanup pass mutates only `dirs`. -/
theorem dirCleanup_shape (l : List String) (s : Sys) :
    ∃ dirs2, dirCleanup l s = { s with dirs := dirs2 } := by
  induction l generalizing s with
  | nil => exact ⟨s.dirs, by simp [dirCleanup]⟩
  | cons d rest ih =>
    unfold dirCleanup
    split
    · split
      · obtain ⟨dr, hdr⟩ := ih { s with dirs := s.dirs.filter (fun d2 => ¬ (d2 = d)) }
        exact ⟨dr, hdr⟩
      · exact ih s
    · exact ih s

/-! # The journal-prefix invariant (for C3) -/

/-- The on-disk journal is a prefix of the in-memory journal. -/
def diskJournalIsPrefix (s : Sys) : Prop :=
  ∃ d, s.journal = s.diskJournal ++ d

theorem diskJournalIsPrefix_of_shape {s t : Sys} (h : diskJournalIsPrefix s)
    (hdisk : t.diskJournal = s.diskJournal) (hj : ∃ d, t.journal = s.journal ++ d) :
    diskJournalIsPrefix t := by
  obtain ⟨d0, h0⟩ := h
  obtain ⟨d1, h1⟩ := hj
  exact ⟨d0 ++ d1, by rw [h1, h0, hdisk, List.append_assoc]⟩

theorem Out.then_preserves {P : Sys → Prop} {o : Out} {f : Sys → Out}
    (h1 : P o.sys) (h2 : ∀ u, P u → P (f u).sys) : P ((o.then f).sys) := by
  unfold Out.then
  cases ho : o.err with
  | some e => exact h1
  | none => exact h2 o.sys h1

theorem Out.then_last {Q : Sys → Prop} {o : Out} {f : Sys → Out}
    (h : (o.then f).err = none) (hf : ∀ u, (f u).err = none → Q (f u).sys) :
    Q ((o.then f).sys) := by
  obtain ⟨h1, h2⟩ := Out.then_err_none h
  rw [Out.then_sys_of_ok h1]
  exact hf o.sys h2

/-- The shared middle of the remove variants mutates only `fs`, `dirs`,
`backups`, `db`, and the journal, to which it only appends. -/
theorem removeCore_shape (env : FsEnv) (pkg : String) (pkgRec : InstalledPackage) (s : Sys) :
    ∃ fs2 dirs2 bk db2 d, (removeCore env pkg pkgRec s).sys =
      { s with fs := fs2, dirs := dirs2, backups := bk, db := db2,
               journal := s.journal ++ d } := by
  rcases hloop : removeFilesLoop env pkg
      ((sortStrings ((Database.get_files s.db pkg).map (fun f => f.path))).reverse)
      { s with journal := s.journal ++ [.dbPackageRemoved pkg pkgRec] } with ⟨o, ds⟩
  have hrc : removeCore env pkg pkgRec s = o.then fun u =>
      ⟨{ dirCleanup ((sortStrings ds.dedup).reverse) u with
          db := (Database.remove_package (dirCleanup ((sortStrings ds.dedup).reverse) u).db pkg).2 },
        [.dbRemoved pkg], none⟩ := by
    unfold removeCore
    simp only [hloop]
  obtain ⟨fs1, bk1, d1, h1⟩ := removeFilesLoop_shape env pkg
    ((sortStrings ((Database.get_files s.db pkg).map (fun f => f.path))).reverse)
    { s with journal := s.journal ++ [.dbPackageRemoved pkg pkgRec] }
  rw [hloop] at h1
  rw [hrc]
  cases he : o.err with
  | some e =>
    rw [Out.then_of_err _ he, h1]
    exact ⟨fs1, s.dirs, bk1, s.db, [.dbPackageRemoved pkg pkgRec] ++ d1, by simp⟩
  | none =>
    rw [Out.then_sys_of_ok he, h1]
    obtain ⟨dr2, h2⟩ := dirCleanup_shape ((sortStrings ds.dedup).reverse) { s with fs := fs1, backups := bk1, journal := (s.journal ++ [.dbPackageRemoved pkg pkgRec]) ++ d1 }
    rw [h2]
    exact ⟨fs1, dr2, bk1, (Database.remove_package s.db pkg).2, [.dbPackageRemoved pkg pkgRec] ++ d1, by simp⟩

/-! Journal-prefix preservation through each operation. -/

theorem doRemove_JP (env : FsEnv) (pkg : String) (s : Sys) (h : diskJournalIsPrefix s) :
    diskJournalIsPrefix (doRemove env pkg s).sys := by
  cases hgp : s.db.get_package pkg with
  | none => simp only [doRemove, hgp]; exact h
  | some pkgRec =>
    simp only [doRemove, hgp]
    apply Out.then_preserves (P := diskJournalIsPrefix)
    · rw [hookIfSome_sys]; exact h
    · intro u hu
      apply Out.then_preserves (P := diskJournalIsPrefix)
      · obtain ⟨fs2, dr, bk, db2, d, hs⟩ := removeCore_shape env pkg pkgRec u
        exact diskJournalIsPrefix_of_shape hu (by rw [hs]) ⟨d, by rw [hs]⟩
      · intro v hv
        apply Out.then_preserves (P := diskJournalIsPrefix)
        · rw [hookIfSome_sys]; exact hv
        · intro w _
          exact ⟨[], by simp [stepOk, saveJournal, removePackageScripts]⟩

theorem doRemoveForUpgrade_JP (env : FsEnv) (pkg : String) (s : Sys)
    (h : diskJournalIsPrefix s) :
    diskJournalIsPrefix (doRemoveForUpgrade env pkg s).sys := by
  cases hgp : s.db.get_package pkg with
  | none => simp only [doRemoveForUpgrade, hgp]; exact h
  | some pkgRec =>
    simp only [doRemoveForUpgrade, hgp]
    apply Out.then_preserves (P := diskJournalIsPrefix)
    · obtain ⟨fs2, dr, bk, db2, d, hs⟩ := removeCore_shape env pkg pkgRec s
      exact diskJournalIsPrefix_of_shape h (by rw [hs]) ⟨d, by rw [hs]⟩
    · intro w _
      exact ⟨[], by simp [stepOk, saveJournal, removePackageScripts]⟩

theorem doInstall_JP (env : FsEnv) (arch : Archive) (s : Sys) (h : diskJournalIsPrefix s) :
    diskJournalIsPrefix (doInstall env arch s).sys := by
  unfold doInstall
  apply Out.then_preserves (P := diskJournalIsPrefix)
  · rw [hookIfSome_sys]; exact h
  · intro u hu
    apply Out.then_preserves (P := diskJournalIsPrefix)
    · cases hc : conflictCheck u.db arch.info.name arch.files with
      | none => exact hu
      | some x => obtain ⟨p, ow⟩ := x; exact hu
    · intro v hv
      apply Out.then_preserves (P := diskJournalIsPrefix)
      · obtain ⟨fs2, dr, bk, d, hs⟩ := installFiles_shape env arch arch.files v
        exact diskJournalIsPrefix_of_shape hv (by rw [hs]) ⟨d, by rw [hs]⟩
      · intro w hw
        apply Out.then_preserves (P := diskJournalIsPrefix)
        · obtain ⟨db2, st, d, hs⟩ := installDbPhase_shape arch w
          exact diskJournalIsPrefix_of_shape hw (by rw [hs]) ⟨d, by rw [hs]⟩
        · intro y hy
          apply Out.then_preserves (P := diskJournalIsPrefix)
          · rw [hookIfSome_sys]; exact hy
          · intro z _
            exact ⟨[], by simp [stepOk, saveJournal]⟩

theorem doInstallForUpgradeCore_JP (env : FsEnv) (arch : Archive) (s : Sys)
    (h : diskJournalIsPrefix s) :
    diskJournalIsPrefix (doInstallForUpgradeCore env arch s).sys := by
  unfold doInstallForUpgradeCore
  apply Out.then_preserves (P := diskJournalIsPrefix)
  · cases hc : conflictCheck s.db arch.info.name arch.files with
    | none => exact h
    | some x => obtain ⟨p, ow⟩ := x; exact h
  · intro v hv
    apply Out.then_preserves (P := diskJournalIsPrefix)
    · obtain ⟨fs2, dr, bk, d, hs⟩ := installFiles_shape env arch arch.files v
      exact diskJournalIsPrefix_of_shape hv (by rw [hs]) ⟨d, by rw [hs]⟩
    · intro w hw
      apply Out.then_preserves (P := diskJournalIsPrefix)
      · obtain ⟨db2, st, d, hs⟩ := installDbPhase_shape arch w
        exact diskJournalIsPrefix_of_shape hw (by rw [hs]) ⟨d, by rw [hs]⟩
      · intro z _
        exact ⟨[], by simp [stepOk, saveJournal]⟩

theorem doInstallForUpgrade_JP (env : FsEnv) (path : String) (s : Sys)
    (h : diskJournalIsPrefix s) :
    diskJournalIsPrefix (doInstallForUpgrade env path s).sys := by
  unfold doInstallForUpgrade
  cases env.readArchive path with
  | none => exact h
  | some arch => exact doInstallForUpgradeCore_JP env arch s h

theorem doUpgrade_JP (env : FsEnv) (pkg path : String) (s : Sys)
    (h : diskJournalIsPrefix s) :
    diskJournalIsPrefix (doUpgrade env pkg path s).sys := by
  unfold doUpgrade
  apply Out.then_preserves (P := diskJournalIsPrefix)
  · rw [hookIfSome_sys]; exact h
  · intro u hu
    cases env.readArchive path with
    | none => exact hu
    | some reader =>
      apply Out.then_preserves (P := diskJournalIsPrefix)
      · exact doRemoveForUpgrade_JP env pkg u hu
      · intro v hv
        apply Out.then_preserves (P := diskJournalIsPrefix)
        · exact doInstallForUpgrade_JP env path v hv
        · intro w hw
          rw [hookIfSome_sys]; exact hw

theorem executeOperation_JP (env : FsEnv) (op : Operation) (s : Sys)
    (h : diskJournalIsPrefix s) :
    diskJournalIsPrefix (executeOperation env op s).sys := by
  cases op with
  | install pkg ver path =>
    simp only [executeOperation]
    cases env.readArchive path with
    | none => exact h
    | some arch => exact doInstall_JP env arch s h
  | remove pkg => exact doRemove_JP env pkg s h
  | upgrade pkg o n path => exact doUpgrade_JP env pkg path s h

/-! On success each operation ends with `save_journal`: the on-disk
journal equals the in-memory journal at the operation boundary. -/

theorem doInstall_saved (env : FsEnv) (arch : Archive) (s : Sys)
    (h : (doInstall env arch s).err = none) :
    (doInstall env arch s).sys.diskJournal = (doInstall env arch s).sys.journal := by
  unfold doInstall at h ⊢
  refine Out.then_last (Q := fun w => w.diskJournal = w.journal) h (fun u h1 => ?_)
  refine Out.then_last (Q := fun w => w.diskJournal = w.journal) h1 (fun v h2 => ?_)
  refine Out.then_last (Q := fun w => w.diskJournal = w.journal) h2 (fun w h3 => ?_)
  refine Out.then_last (Q := fun w => w.diskJournal = w.journal) h3 (fun y h4 => ?_)
  refine Out.then_last (Q := fun w => w.diskJournal = w.journal) h4 (fun z _ => ?_)
  rfl

theorem doRemove_saved (env : FsEnv) (pkg : String) (s : Sys)
    (h : (doRemove env pkg s).err = none) :
    (doRemove env pkg s).sys.diskJournal = (doRemove env pkg s).sys.journal := by
  unfold doRemove at h ⊢
  cases hgp : s.db.get_package pkg with
  | none => simp only [hgp] at h; exact Option.noConfusion h
  | some pkgRec =>
    simp only [hgp] at h ⊢
    refine Out.then_last (Q := fun w => w.diskJournal = w.journal) h (fun u h1 => ?_)
    refine Out.then_last (Q := fun w => w.diskJournal = w.journal) h1 (fun v h2 => ?_)
    refine Out.then_last (Q := fun w => w.diskJournal = w.journal) h2 (fun w _ => ?_)
    rfl

theorem doRemoveForUpgrade_saved (env : FsEnv) (pkg : String) (s : Sys)
    (h : (doRemoveForUpgrade env pkg s).err = none) :
    (doRemoveForUpgrade env pkg s).sys.diskJournal
      = (doRemoveForUpgrade env pkg s).sys.journal := by
  unfold doRemoveForUpgrade at h ⊢
  cases hgp : s.db.get_package pkg with
  | none => simp only [hgp] at h; exact Option.noConfusion h
  | some pkgRec =>
    simp only [hgp] at h ⊢
    refine Out.then_last (Q := fun w => w.diskJournal = w.journal) h (fun u _ => ?_)
    rfl

theorem doInstallForUpgrade_saved (env : FsEnv) (path : String) (s : Sys)
    (h : (doInstallForUpgrade env path s).err = none) :
    (doInstallForUpgrade env path s).sys.diskJournal
      = (doInstallForUpgrade env path s).sys.journal := by
  unfold doInstallForUpgrade at h ⊢
  cases harch : env.readArchive path with
  | none => simp only [harch] at h; exact Option.noConfusion h
  | some arch =>
    simp only [harch] at h ⊢
    unfold doInstallForUpgradeCore at h ⊢
    refine Out.then_last (Q := fun w => w.diskJournal = w.journal) h (fun u h1 => ?_)
    refine Out.then_last (Q := fun w => w.diskJournal = w.journal) h1 (fun v h2 => ?_)
    refine Out.then_last (Q := fun w => w.diskJournal = w.journal) h2 (fun w _ => ?_)
    rfl

theorem doUpgrade_saved (env : FsEnv) (pkg path : String) (s : Sys)
    (h : (doUpgrade env pkg path s).err = none) :
    (doUpgrade env pkg path s).sys.diskJournal = (doUpgrade env pkg path s).sys.journal := by
  unfold doUpgrade at h ⊢
  refine Out.then_last (Q := fun w => w.diskJournal = w.journal) h (fun u h1 => ?_)
  cases harch : env.readArchive path with
  | none => simp only [harch] at h1; exact Option.noConfusion h1
  | some reader =>
    simp only [harch] at h1 ⊢
    refine Out.then_last (Q := fun w => w.diskJournal = w.journal) h1 (fun v h2 => ?_)
    obtain ⟨h3, h4⟩ := Out.then_err_none h2
    rw [Out.then_sys_of_ok h3, hookIfSome_sys]
    exact doInstallForUpgrade_saved env path v h3

theorem executeOperation_saved (env : FsEnv) (op : Operation) (s : Sys)
    (h : (executeOperation env op s).err = none) :
    (executeOperation env op s).sys.diskJournal = (executeOperation env op s).sys.journal := by
  cases op with
  | install pkg ver path =>
    simp only [executeOperation] at h ⊢
    cases harch : env.readArchive path with
    | none => rw [harch] at h; exact Option.noConfusion h
    | some arch =>
      simp only [harch] at h ⊢
      exact doInstall_saved env arch s h
  | remove pkg => exact doRemove_saved env pkg s h
  | upgrade pkg o n path => exact doUpgrade_saved env pkg path s h

/-- C10: `Transaction::execute` can only run from the `Pending` state —
on a transaction in any other state it returns the already-executed
error immediately, leaving the transaction (filesystem, database,
journal, everything) untouched, executing no operation and emitting no
event. -/
theorem c10_execute_only_from_pending (env : FsEnv) (tx : Tx)
    (h : tx.state ≠ TransactionState.Pending) :
    Tx.execute env tx = ⟨tx, [], [], .error (.alreadyExecuted tx.state)⟩ := by
  unfold Tx.execute
  rw [if_pos h]

/-- Witness for C10 at a `Completed` transaction. -/
theorem c10_execute_only_from_pending_witness :
    txCompleted.state ≠ TransactionState.Pending ∧
    Tx.execute envGhost txCompleted =
      ⟨txCompleted, [], [], .error (.alreadyExecuted TransactionState.Completed)⟩ :=
  ⟨by decide, c10_execute_only_from_pending envGhost txCompleted (by decide)⟩

/-- C5: deleting a package from the database cascades to its owned rows:
on the connection as the program opens it (foreign keys enforced, see
`Database.openInit`), after `remove_package name` no `files` row and no
`dependencies` row referencing the id of any package named `name`
remains. -/
theorem c5_remove_package_cascades (db : Database) (name : String)
    (hfk : db.foreignKeys = true) :
    (∀ f ∈ (Database.remove_package db name).2.files,
      ∀ r ∈ db.packages, r.pkg.name = name → f.package_id ≠ r.id) ∧
    (∀ d ∈ (Database.remove_package db name).2.deps,
      ∀ r ∈ db.packages, r.pkg.name = name → d.package_id ≠ r.id) := by
  unfold Database.remove_package
  rw [if_pos hfk]
  constructor
  · intro f hf r hr hname heq
    simp only [List.mem_filter, decide_not, Bool.not_eq_true', decide_eq_false_iff_not] at hf
    exact hf.2 (heq ▸ List.mem_map_of_mem (fun r => r.id)
      (List.mem_filter.mpr ⟨hr, by simp [hname]⟩))
  · intro d hd r hr hname heq
    simp only [List.mem_filter, decide_not, Bool.not_eq_true', decide_eq_false_iff_not] at hd
    exact hd.2 (heq ▸ List.mem_map_of_mem (fun r => r.id)
      (List.mem_filter.mpr ⟨hr, by simp [hname]⟩))

/-- Witness for C5: removing `foo` deletes its `files` row. -/
theorem c5_remove_package_cascades_witness :
    dbFoo.foreignKeys = true ∧
    (Database.remove_package dbFoo "foo").2.files = [] ∧
    (∀ f ∈ (Database.remove_package dbFoo "foo").2.files,
      ∀ r ∈ dbFoo.packages, r.pkg.name = "foo" → f.package_id ≠ r.id) :=
  ⟨by decide, by decide, (c5_remove_package_cascades dbFoo "foo" (by decide)).1⟩

/-- C1, counterexample: in the transaction `[Remove foo, Remove ghost]`
(the second operation fails, so the first is rolled back), the journal
walk restores the filesystem and re-inserts `foo`'s `packages` record,
but not its `files` rows: after `RolledBack`, the database answers
`get_files foo = []` although it answered the one owned file before the
transaction — the database is not bit-identical to its pre-transaction
state. -/
theorem c1_counterexample :
    (Tx.execute envGhost txRemoveThenGhost).tx.state = TransactionState.RolledBack ∧
    Database.get_files (Tx.execute envGhost txRemoveThenGhost).tx.sys.db "foo" = [] ∧
    Database.get_files txRemoveThenGhost.sys.db "foo" = [fooFileRow] ∧
    (Tx.execute envGhost txRemoveThenGhost).tx.sys.db ≠ txRemoveThenGhost.sys.db := by
  refine ⟨by decide, by decide, by decide, by decide⟩

/-- C2, counterexample: in the transaction `[Install a, Remove ghost]`
under an environment where unlinking `/usr/bin/a` fails, a rollback step
(the inverse of `FileCreated /usr/bin/a`) raises an I/O error; the error
is discarded by the `.ok()` in `Transaction::rollback`, and the
transaction is marked `RolledBack`, not `Failed`. -/
theorem c2_counterexample :
    (Tx.execute envUnlinkFails txInstallThenGhost).rollbackErrors ≠ [] ∧
    (Tx.execute envUnlinkFails txInstallThenGhost).tx.state = TransactionState.RolledBack ∧
    TransactionState.RolledBack ≠ TransactionState.Failed := by
  refine ⟨by decide, by decide, by decide⟩

/-- C9, counterexample: upgrading `foo` while the user has edited its
`is_config` file `/etc/foo.conf` succeeds, *overwrites* the edited file
with the new default content at its installed path, and writes no
`/etc/foo.conf.new` — the upgrade path has no config-preservation logic. -/
theorem c9_counterexample :
    archFoo2.files = [⟨"/etc/foo.conf", 420, 7, "hc2", true⟩] ∧
    sysFooConf.fs.get "/etc/foo.conf" = some "edited-by-user" ∧
    (doUpgrade envFoo2 "foo" "foo2.pkg" sysFooConf).err = none ∧
    (doUpgrade envFoo2 "foo" "foo2.pkg" sysFooConf).sys.fs.get "/etc/foo.conf"
      = some "default-content" ∧
    (doUpgrade envFoo2 "foo" "foo2.pkg" sysFooConf).sys.fs.get "/etc/foo.conf.new" = none := by
  refine ⟨by decide, by decide, by decide, by decide, by decide⟩

/-- C3, counterexample: `save_journal` does not write a temp file, fsync
it and rename it over the journal path; it issues exactly one direct
write of the serialized journal onto the journal path itself. -/
theorem c3_counterexample :
    ¬ (∃ tmp content, saveJournalActions "/t" [] =
        [FsAction.write tmp content, FsAction.fsync tmp,
         FsAction.rename tmp "/t/journal.toml"]) := by
  intro h
  obtain ⟨tmp, content, h⟩ := h
  simp [saveJournalActions] at h

theorem runScript_ok (env : FsEnv) (pkg n c : String) (s : Sys)
    (h : env.scriptFails pkg n = false) : (runScript env pkg n c s).err = none := by
  unfold runScript
  split
  · rfl
  · rw [h]
    simp

theorem hookIfSome_ok (env : FsEnv) (pkg n : String) (c : Option String) (s : Sys)
    (h : env.scriptFails pkg n = false) : (hookIfSome env pkg n c s).err = none := by
  unfold hookIfSome
  cases c with
  | none => rfl
  | some script =>
    simp only []
    split
    · exact runScript_ok env pkg n script s h
    · rfl

/-- On a conflicting manifest, `do_install` fails with the file-conflict
error before mutating anything. -/
theorem doInstall_conflict (env : FsEnv) (arch : Archive) (s : Sys) (p owner : String)
    (hc : conflictCheck s.db arch.info.name arch.files = some (p, owner))
    (hsf : env.scriptFails arch.info.name "pre_install" = false) :
    (doInstall env arch s).err = some (.fileConflict p owner) ∧
    (doInstall env arch s).sys = s := by
  have hok : (hookIfSome env arch.info.name "pre_install"
      (arch.scripts.map (fun sc => sc.pre_install)) s).err = none :=
    hookIfSome_ok env arch.info.name "pre_install" _ s hsf
  have hsys : (hookIfSome env arch.info.name "pre_install"
      (arch.scripts.map (fun sc => sc.pre_install)) s).sys = s :=
    hookIfSome_sys env arch.info.name "pre_install" _ s
  unfold doInstall
  rw [Out.then_of_ok _ hok]
  simp only [hsys, hc]
  rw [Out.then_of_err _ rfl]
  exact ⟨rfl, rfl⟩

/-- A manifest whose paths are owned only by the installing package
itself passes the conflict check. -/
theorem conflictCheck_none_of_same (db : Database) (name : String) (files : List FileEntry)
    (hall : ∀ f ∈ files, ∀ ow, Database.file_owner db f.path = some ow → ow = name) :
    conflictCheck db name files = none := by
  induction files with
  | nil => rfl
  | cons f rest ih =>
    unfold conflictCheck
    cases hfo : Database.file_owner db f.path with
    | none => exact ih (fun g hg ow how => hall g (List.mem_cons_of_mem f hg) ow how)
    | some ow =>
      have hown : ow = name := hall f (List.mem_cons_self f rest) ow hfo
      show (if ow ≠ name then some (f.path, ow) else conflictCheck db name rest) = none
      rw [if_neg (by simp [hown])]
      exact ih (fun g hg ow2 how => hall g (List.mem_cons_of_mem f hg) ow2 how)

/-- C4: if a manifest path is owned by a different installed package, the
install fails with a file-conflict error naming the first conflicting
path and its owner, before any file is copied to the root or any
database row is written (the world is returned exactly as it was); paths
owned by the same package do not trigger the conflict; and a fresh
transaction consisting of that install halts, rolls back, and leaves the
database and filesystem unchanged, surfacing the file-conflict error. -/
theorem c4_file_conflict_halts_unchanged :
    (∀ env arch s p owner,
      conflictCheck s.db arch.info.name arch.files = some (p, owner) →
      env.scriptFails arch.info.name "pre_install" = false →
      (doInstall env arch s).err = some (.fileConflict p owner) ∧
      (doInstall env arch s).sys = s) ∧
    (∀ db name files,
      (∀ f ∈ files, ∀ ow, Database.file_owner db f.path = some ow → ow = name) →
      conflictCheck db name files = none) ∧
    (∀ env tx pkg ver path arch p owner,
      tx.state = TransactionState.Pending →
      tx.operations = [Operation.install pkg ver path] →
      tx.sys.journal = [] →
      env.readArchive path = some arch →
      conflictCheck tx.sys.db arch.info.name arch.files = some (p, owner) →
      env.scriptFails arch.info.name "pre_install" = false →
      (Tx.execute env tx).tx.state = TransactionState.RolledBack ∧
      (Tx.execute env tx).tx.sys.db = tx.sys.db ∧
      (Tx.execute env tx).tx.sys.fs = tx.sys.fs ∧
      (Tx.execute env tx).result = .error (.fileConflict p owner)) := by
  refine ⟨fun env arch s p owner hc hsf => doInstall_conflict env arch s p owner hc hsf,
    conflictCheck_none_of_same, ?_⟩
  intro env tx pkg ver path arch p owner hst hops hj harch hc hsf
  obtain ⟨herr, hsys⟩ := doInstall_conflict env arch tx.sys p owner hc hsf
  have hop : executeOperation env (Operation.install pkg ver path) tx.sys
      = doInstall env arch tx.sys := by
    simp [executeOperation, harch]
  have hex : executeOps env [Operation.install pkg ver path] tx.sys
      = (executeOperation env (Operation.install pkg ver path) tx.sys).then
          (executeOps env []) := by
    simp only [executeOps]
  have hex2 : executeOps env [Operation.install pkg ver path] tx.sys
      = doInstall env arch tx.sys := by
    rw [hex, hop, Out.then_of_err _ herr]
  unfold Tx.execute
  rw [if_neg (by simp [hst]), hops, hex2]
  simp only [herr]
  have hrb : rollback env (doInstall env arch tx.sys).sys
      = ((doInstall env arch tx.sys).sys, [], Except.ok ()) := by
    unfold rollback
    rw [hsys, hj]
    rfl
  rw [hrb]
  exact ⟨rfl, by rw [hsys], by rw [hsys], rfl⟩

/-- Witness for C4: installing `bar` (which ships `/usr/bin/x`, owned by
`foo`) on `sysFoo`. -/
theorem c4_file_conflict_halts_unchanged_witness :
    txInstallBar.state = TransactionState.Pending ∧
    txInstallBar.operations = [Operation.install "bar" "2.0" "bar.pkg"] ∧
    txInstallBar.sys.journal = [] ∧
    envBar.readArchive "bar.pkg" = some archBar ∧
    conflictCheck txInstallBar.sys.db archBar.info.name archBar.files
      = some ("/usr/bin/x", "foo") ∧
    ((Tx.execute envBar txInstallBar).tx.state = TransactionState.RolledBack ∧
     (Tx.execute envBar txInstallBar).tx.sys.db = txInstallBar.sys.db ∧
     (Tx.execute envBar txInstallBar).tx.sys.fs = txInstallBar.sys.fs ∧
     (Tx.execute envBar txInstallBar).result = .error (.fileConflict "/usr/bin/x" "foo")) :=
  ⟨rfl, rfl, rfl, by decide, by decide,
    c4_file_conflict_halts_unchanged.2.2 envBar txInstallBar "bar" "2.0" "bar.pkg" archBar
      "/usr/bin/x" "foo" rfl rfl rfl (by decide) (by decide) rfl⟩

/-- What one iteration of `update_all` does to one repository: a
disabled repository is skipped; a failed update leaves it as it was. -/
def updateOne (env : UpdateEnv) (r : Repo) : Repo :=
  if r.enabled then
    match updateRepo env r with
    | .ok x => x.2
    | .error _ => r
  else r

theorem updateAll_repos_map (env : UpdateEnv) (repos : List Repo) :
    (updateAll env repos).1 = repos.map (updateOne env) := by
  induction repos with
  | nil => rfl
  | cons r rest ih =>
    unfold updateAll
    cases hen : r.enabled with
    | false => simp [updateOne, hen, ih]
    | true =>
      cases hur : updateRepo env r with
      | ok x => cases hx : x.1 <;> simp [updateOne, hen, hur, ih]
      | error e => simp [updateOne, hen, hur, ih]

theorem updateAll_total (env : UpdateEnv) (repos : List Repo) :
    (updateAll env repos).2.updated.length + (updateAll env repos).2.unchanged.length
      + (updateAll env repos).2.failed.length
      = (repos.filter (fun r => r.enabled)).length := by
  induction repos with
  | nil => rfl
  | cons r rest ih =>
    unfold updateAll
    cases hen : r.enabled with
    | false => simp [hen, ih, List.filter_cons]
    | true =>
      cases hur : updateRepo env r with
      | ok x =>
        cases hx : x.1 <;>
          simp [hen, hur, hx, List.filter_cons] <;> omega
      | error e =>
        simp [hen, hur, List.filter_cons]
        omega

theorem updateAll_covers (env : UpdateEnv) (repos : List Repo) (r : Repo)
    (hr : r ∈ repos) (hen : r.enabled = true) :
    r.name ∈ (updateAll env repos).2.updated ∨
    r.name ∈ (updateAll env repos).2.unchanged ∨
    r.name ∈ (updateAll env repos).2.failed.map Prod.fst := by
  induction repos with
  | nil => cases hr
  | cons q rest ih =>
    rcases List.mem_cons.mp hr with hqr | hrest
    · subst hqr
      unfold updateAll
      rw [hen]
      cases hur : updateRepo env r with
      | ok x =>
        cases hx : x.1
        · right; left; simp [hx]
        · left; simp [hx]
      | error e => right; right; simp
    · have htail := ih hrest
      unfold updateAll
      cases hqe : q.enabled with
      | false => simpa using htail
      | true =>
        cases hur : updateRepo env q with
        | ok x =>
          cases hx : x.1 <;> simp only [hqe, hur, hx] <;>
            rcases htail with h1 | h2 | h3
          · left; simp [h1]
          · right; left; simp [h2]
          · right; right; simpa using h3
          · left; simp [h1]
          · right; left; simp [h2]
          · right; right; simpa using h3
        | error e =>
          simp only [hqe, hur]
          rcases htail with h1 | h2 | h3
          · left; simpa using h1
          · right; left; simpa using h2
          · right; right; simp [h3]

theorem updateRepo_sig_failure (env : UpdateEnv) (repo : Repo) (md : RepoMetadata)
    (ic sc : String) (sig : HybridSignature) (key : LoadedPublicKey)
    (h1 : (env.fetch repo.name).metadataResult = .ok md)
    (h2 : (env.fetch repo.name).indexResult = .ok ic)
    (h3 : (env.fetch repo.name).sigResponse = some sc)
    (h4 : env.parseSignature sc = .ok sig)
    (h5 : env.findRepoKey md.signing.fingerprint = .ok key)
    (h6 : env.verifySignature key ic sig = false) :
    updateRepo env repo = .error "Package index signature verification failed" ∧
    updateOne env repo = repo := by
  have hur : updateRepo env repo = .error "Package index signature verification failed" := by
    simp only [updateRepo, h1, h2, h3, h4, h5, h6]
    simp
  refine ⟨hur, ?_⟩
  unfold updateOne
  rw [hur]
  split <;> rfl

/-- C6: repository update is fault-isolated and cache-preserving:
`update_all` transforms each repository independently (a failure leaves
that repository untouched and does not stop the others), every enabled
repository is recorded in exactly one of the `{updated, unchanged,
failed}` buckets (their sizes sum to the number of enabled
repositories, and each enabled repository's name appears in one), and a
repository whose index signature fails the cryptographic check yields
the verification error with its in-memory and cached metadata and index
left exactly as they were. -/
theorem c6_update_all_fault_isolated :
    (∀ env repos, (updateAll env repos).1 = repos.map (updateOne env)) ∧
    (∀ env repos, (updateAll env repos).2.updated.length
        + (updateAll env repos).2.unchanged.length
        + (updateAll env repos).2.failed.length
        = (repos.filter (fun r => r.enabled)).length) ∧
    (∀ env repos r, r ∈ repos → r.enabled = true →
      r.name ∈ (updateAll env repos).2.updated ∨
      r.name ∈ (updateAll env repos).2.unchanged ∨
      r.name ∈ (updateAll env repos).2.failed.map Prod.fst) ∧
    (∀ env repo md ic sc sig key,
      (env.fetch repo.name).metadataResult = .ok md →
      (env.fetch repo.name).indexResult = .ok ic →
      (env.fetch repo.name).sigResponse = some sc →
      env.parseSignature sc = .ok sig →
      env.findRepoKey md.signing.fingerprint = .ok key →
      env.verifySignature key ic sig = false →
      updateRepo env repo = .error "Package index signature verification failed" ∧
      updateOne env repo = repo) :=
  ⟨updateAll_repos_map, updateAll_total, updateAll_covers, updateRepo_sig_failure⟩

/-- Witness for C6: `core` verifies and updates, the signature of `bad`
fails and its cache is untouched. -/
theorem c6_update_all_fault_isolated_witness :
    repoBad.enabled = true ∧
    envUpdate.verifySignature ⟨"FPB"⟩ "IDX-BAD" ⟨"SIG-BAD"⟩ = false ∧
    (updateRepo envUpdate repoBad = .error "Package index signature verification failed" ∧
     updateOne envUpdate repoBad = repoBad) ∧
    (repoBad.name ∈ (updateAll envUpdate [repoCore, repoBad]).2.updated ∨
     repoBad.name ∈ (updateAll envUpdate [repoCore, repoBad]).2.unchanged ∨
     repoBad.name ∈ (updateAll envUpdate [repoCore, repoBad]).2.failed.map Prod.fst) ∧
    (updateAll envUpdate [repoCore, repoBad]).1 = [repoCore, repoBad].map (updateOne envUpdate) :=
  ⟨rfl, rfl,
    c6_update_all_fault_isolated.2.2.2 envUpdate repoBad mdBad "IDX-BAD" "SIG-BAD"
      ⟨"SIG-BAD"⟩ ⟨"FPB"⟩ rfl rfl rfl rfl rfl rfl,
    c6_update_all_fault_isolated.2.2.1 envUpdate [repoCore, repoBad] repoBad
      (by simp) rfl,
    c6_update_all_fault_isolated.1 envUpdate [repoCore, repoBad]⟩

theorem alreadyInstalled_name (db : Database) (verified : List VerifiedPackage)
    (name : String) :
    ((alreadyInstalled db verified).any (fun nv => nv.1 = name) = true) ↔
    (∃ w ∈ verified, w.package.name = name ∧
      Database.get_package db w.package.name ≠ none) := by
  unfold alreadyInstalled
  rw [List.any_eq_true]
  constructor
  · rintro ⟨nv, hnv, hval⟩
    obtain ⟨w, hw, hmap⟩ := List.mem_filterMap.mp hnv
    rw [Option.map_eq_some'] at hmap
    obtain ⟨ex, hex, hpair⟩ := hmap
    refine ⟨w, hw, ?_, by rw [hex]; simp⟩
    have h1 : nv.1 = w.package.name := by rw [← hpair]
    simp only [decide_eq_true_eq] at hval
    rw [← h1]
    exact hval
  · rintro ⟨w, hw, hname, hsome⟩
    cases hgp : Database.get_package db w.package.name with
    | none => exact absurd hgp hsome
    | some ex =>
      refine ⟨(w.package.name, ex.version), ?_, by simp [hname]⟩
      exact List.mem_filterMap.mpr ⟨w, hw, by rw [hgp]; rfl⟩

/-- C7, counterexample: `lib` is installed at 1.0; the resolver selected
`lib-2.1` (the applicable constraint being `>= 2.0`, which 1.0 does not
satisfy), yet the install command still excludes `lib` from the install
list — exclusion tests only presence in the database, not constraint
satisfaction — and reports nothing new to install. -/
theorem c7_counterexample :
    Database.get_package dbLibOld "lib" = some ⟨"lib", "1.0", 1, 0, 5, "", ""⟩ ∧
    specVersionSatisfies "1.0" ">= 2.0" = false ∧
    packagesToInstall dbLibOld verifiedLib = [] ∧
    installFilterStep dbLibOld verifiedLib = .nothingNew :=
  ⟨by decide, by decide, by decide, by decide⟩

/-- C7 (amended): an already-installed package is excluded from the
install list exactly when its name is present in the database —
regardless of whether the installed version satisfies any version
constraint; when everything resolved is already installed the command
reports nothing new to install. -/
theorem c7_installed_filter_presence_only :
    (∀ db verified v, v ∈ packagesToInstall db verified ↔
      (v ∈ verified ∧ Database.get_package db v.package.name = none)) ∧
    (∀ db verified, packagesToInstall db verified = [] →
      installFilterStep db verified = .nothingNew) := by
  constructor
  · intro db verified v
    unfold packagesToInstall
    rw [List.mem_filter]
    constructor
    · rintro ⟨hv, hpred⟩
      refine ⟨hv, ?_⟩
      simp only [decide_not, Bool.not_eq_true', decide_eq_false_iff_not] at hpred
      cases hgp : Database.get_package db v.package.name with
      | none => rfl
      | some ex =>
        exfalso
        apply hpred
        exact (alreadyInstalled_name db verified v.package.name).mpr
          ⟨v, hv, rfl, by rw [hgp]; simp⟩
    · rintro ⟨hv, hnone⟩
      refine ⟨hv, ?_⟩
      simp only [decide_not, Bool.not_eq_true', decide_eq_false_iff_not]
      intro hany
      obtain ⟨w, _, hname, hsome⟩ := (alreadyInstalled_name db verified v.package.name).mp hany
      rw [hname] at hsome
      exact hsome hnone
  · intro db verified h
    simp [installFilterStep, h]

/-- Witness for C7's amended theorem: `lib` is present in the database,
so it is filtered out and the command reports nothing new. -/
theorem c7_installed_filter_presence_only_witness :
    packagesToInstall dbLibOld verifiedLib = [] ∧
    installFilterStep dbLibOld verifiedLib = .nothingNew :=
  ⟨by decide, c7_installed_filter_presence_only.2 dbLibOld verifiedLib (by decide)⟩

/-- No event in the list is a hook execution. -/
def eventsNoHooks (l : List Event) : Prop :=
  ∀ e ∈ l, ∀ q n, e ≠ Event.hookRun q n

theorem eventsNoHooks_nil : eventsNoHooks [] := by
  intro e he
  simp at he

theorem eventsNoHooks_append {a b : List Event} (ha : eventsNoHooks a) (hb : eventsNoHooks b) :
    eventsNoHooks (a ++ b) := by
  intro e he q n
  rcases List.mem_append.mp he with h | h
  · exact ha e h q n
  · exact hb e h q n

theorem Out.then_noHooks {o : Out} {f : Sys → Out} (ho : eventsNoHooks o.events)
    (hf : ∀ u, eventsNoHooks (f u).events) : eventsNoHooks ((o.then f).events) := by
  unfold Out.then
  cases he : o.err with
  | some e => exact ho
  | none => exact eventsNoHooks_append ho (hf o.sys)

theorem installBackupStep_events (env : FsEnv) (arch : Archive) (entry : FileEntry) (s : Sys) :
    (installBackupStep env arch entry s).events = [] := by
  unfold installBackupStep
  cases s.fs.get entry.path with
  | some c => simp only []; split <;> rfl
  | none => simp only []; split <;> rfl

theorem installParentStep_events (entry : FileEntry) (s : Sys) :
    (installParentStep entry s).events = [] := by
  simp only [installParentStep]
  split <;> rfl

theorem installCopyStep_noHooks (env : FsEnv) (arch : Archive) (entry : FileEntry) (s : Sys) :
    eventsNoHooks (installCopyStep env arch entry s).events := by
  unfold installCopyStep
  split
  · split
    · intro e he q n
      simp only [List.mem_singleton] at he
      subst he
      exact fun hc => Event.noConfusion hc
    · exact eventsNoHooks_nil
  · cases arch.data.get entry.path with
    | some c =>
      simp only []
      split
      · exact eventsNoHooks_nil
      · intro e he q n
        simp only [List.mem_singleton] at he
        subst he
        exact fun hc => Event.noConfusion hc
    | none => exact eventsNoHooks_nil

theorem installFiles_noHooks (env : FsEnv) (arch : Archive) (l : List FileEntry) (s : Sys) :
    eventsNoHooks (installFiles env arch l s).events := by
  induction l generalizing s with
  | nil => exact eventsNoHooks_nil
  | cons entry rest ih =>
    show eventsNoHooks ((installBackupStep env arch entry s).then fun s =>
      (installParentStep entry s).then fun s =>
      (installCopyStep env arch entry s).then fun s =>
      installFiles env arch rest s).events
    apply Out.then_noHooks
    · rw [installBackupStep_events]; exact eventsNoHooks_nil
    · intro u
      apply Out.then_noHooks
      · rw [installParentStep_events]; exact eventsNoHooks_nil
      · intro v
        apply Out.then_noHooks
        · exact installCopyStep_noHooks env arch entry v
        · intro w
          exact ih w

theorem addFiles_events (pkgId : Nat) (l : List FileEntry) (s : Sys) :
    (addFiles pkgId l s).events = [] := by
  induction l generalizing s with
  | nil => rfl
  | cons f rest ih =>
    cases hadd : s.db.add_file pkgId
        ⟨f.path, f.mode, "root", "root", f.size, f.sha256, f.is_config⟩ with
    | none => simp [addFiles, hadd]
    | some db2 =>
      simp only [addFiles, hadd]
      exact ih { s with db := db2 }

theorem installDbPhase_noHooks (arch : Archive) (s : Sys) :
    eventsNoHooks (installDbPhase arch s).events := by
  cases hadd : s.db.add_package (instRecord arch.info) with
  | none =>
    simp only [installDbPhase, hadd]
    exact eventsNoHooks_nil
  | some x =>
    obtain ⟨pkgId, db2⟩ := x
    simp only [installDbPhase, hadd]
    apply Out.then_noHooks
    · intro e he q n
      simp only [List.mem_singleton] at he
      subst he
      exact fun hc => Event.noConfusion hc
    · intro u
      apply Out.then_noHooks
      · rw [addFiles_events]; exact eventsNoHooks_nil
      · intro v
        exact eventsNoHooks_nil

theorem doInstallForUpgradeCore_noHooks (env : FsEnv) (arch : Archive) (s : Sys) :
    eventsNoHooks (doInstallForUpgradeCore env arch s).events := by
  unfold doInstallForUpgradeCore
  apply Out.then_noHooks
  · cases conflictCheck s.db arch.info.name arch.files with
    | none => exact eventsNoHooks_nil
    | some x => obtain ⟨p, ow⟩ := x; exact eventsNoHooks_nil
  · intro u
    apply Out.then_noHooks
    · exact installFiles_noHooks env arch arch.files u
    · intro v
      apply Out.then_noHooks
      · exact installDbPhase_noHooks arch v
      · intro w
        exact eventsNoHooks_nil

theorem doInstallForUpgrade_noHooks (env : FsEnv) (path : String) (s : Sys) :
    eventsNoHooks (doInstallForUpgrade env path s).events := by
  unfold doInstallForUpgrade
  cases env.readArchive path with
  | none => exact eventsNoHooks_nil
  | some arch => exact doInstallForUpgradeCore_noHooks env arch s

theorem removeFilesLoop_noHooks (env : FsEnv) (pkg : String) (l : List String) (s : Sys) :
    eventsNoHooks (removeFilesLoop env pkg l s).1.events := by
  induction l generalizing s with
  | nil => exact eventsNoHooks_nil
  | cons p rest ih =>
    cases hg : s.fs.get p with
    | none =>
      simp only [removeFilesLoop, hg]
      exact ih s
    | some c =>
      simp only [removeFilesLoop, hg]
      split
      · exact eventsNoHooks_nil
      · split
        · exact eventsNoHooks_nil
        · intro e he q n
          simp only [] at he
          rcases List.mem_cons.mp he with h1 | h2
          · subst h1; exact fun hc => Event.noConfusion hc
          · exact ih _ e h2 q n

theorem removeCore_noHooks (env : FsEnv) (pkg : String) (pkgRec : InstalledPackage) (s : Sys) :
    eventsNoHooks (removeCore env pkg pkgRec s).events := by
  rcases hloop : removeFilesLoop env pkg
      ((sortStrings ((Database.get_files s.db pkg).map (fun f => f.path))).reverse)
      { s with journal := s.journal ++ [.dbPackageRemoved pkg pkgRec] } with ⟨o, ds⟩
  have hrc : removeCore env pkg pkgRec s = o.then fun u =>
      ⟨{ dirCleanup ((sortStrings ds.dedup).reverse) u with
          db := (Database.remove_package (dirCleanup ((sortStrings ds.dedup).reverse) u).db pkg).2 },
        [.dbRemoved pkg], none⟩ := by
    unfold removeCore
    simp only [hloop]
  rw [hrc]
  apply Out.then_noHooks
  · have := removeFilesLoop_noHooks env pkg
      ((sortStrings ((Database.get_files s.db pkg).map (fun f => f.path))).reverse)
      { s with journal := s.journal ++ [.dbPackageRemoved pkg pkgRec] }
    rw [hloop] at this
    exact this
  · intro u e he q n
    simp only [List.mem_singleton] at he
    subst he
    exact fun hc => Event.noConfusion hc

theorem doRemoveForUpgrade_noHooks (env : FsEnv) (pkg : String) (s : Sys) :
    eventsNoHooks (doRemoveForUpgrade env pkg s).events := by
  cases hgp : s.db.get_package pkg with
  | none =>
    simp only [doRemoveForUpgrade, hgp]
    exact eventsNoHooks_nil
  | some pkgRec =>
    simp only [doRemoveForUpgrade, hgp]
    apply Out.then_noHooks
    · exact removeCore_noHooks env pkg pkgRec s
    · intro u
      exact eventsNoHooks_nil

/-- A hook call site with a present, non-empty, non-whitespace script
that succeeds: it runs the hook, emits exactly its event, and changes
nothing. -/
theorem hookIfSome_run (env : FsEnv) (pkg n c : String) (s : Sys)
    (hne : ¬ strIsEmpty c) (ht : ¬ trimIsEmpty c)
    (hok : env.scriptFails pkg n = false) :
    hookIfSome env pkg n (some c) s = ⟨s, [.hookRun pkg n], none⟩ := by
  unfold hookIfSome runScript
  simp only []
  rw [if_pos hne, if_neg ht, hok]
  simp

/-- C8: in an upgrade, the old installation's persisted `pre_upgrade`
hook runs first (before any file is removed), the new archive's
`post_upgrade` hook runs last (after all files are installed), and the
constituent remove and install steps execute no hook at all — the full
event trace is the pre-upgrade hook, then the remove events, then the
install events, then the post-upgrade hook. -/
theorem c8_upgrade_hook_schedule (env : FsEnv) (pkg path : String) (s : Sys)
    (preS : String) (arch : Archive) (sc : InstallScripts)
    (hpre : loadPackageScript s pkg "pre_upgrade" = some preS)
    (hpreNE : ¬ strIsEmpty preS) (hpreT : ¬ trimIsEmpty preS)
    (hpreOk : env.scriptFails pkg "pre_upgrade" = false)
    (harch : env.readArchive path = some arch)
    (hsc : arch.scripts = some sc)
    (hpostNE : ¬ strIsEmpty sc.post_upgrade) (hpostT : ¬ trimIsEmpty sc.post_upgrade)
    (hpostOk : env.scriptFails pkg "post_upgrade" = false)
    (hrm : (doRemoveForUpgrade env pkg s).err = none)
    (hin : (doInstallForUpgrade env path (doRemoveForUpgrade env pkg s).sys).err = none) :
    (doUpgrade env pkg path s).events =
      [Event.hookRun pkg "pre_upgrade"]
        ++ (doRemoveForUpgrade env pkg s).events
        ++ (doInstallForUpgrade env path (doRemoveForUpgrade env pkg s).sys).events
        ++ [Event.hookRun pkg "post_upgrade"] ∧
    eventsNoHooks (doRemoveForUpgrade env pkg s).events ∧
    eventsNoHooks (doInstallForUpgrade env path (doRemoveForUpgrade env pkg s).sys).events := by
  refine ⟨?_, doRemoveForUpgrade_noHooks env pkg s, doInstallForUpgrade_noHooks env path _⟩
  unfold doUpgrade
  rw [hpre, hookIfSome_run env pkg "pre_upgrade" preS s hpreNE hpreT hpreOk,
    Out.then_of_ok _ rfl]
  simp only [harch]
  rw [Out.then_of_ok _ hrm, Out.then_of_ok _ hin]
  rw [hsc]
  simp only [Option.map_some']
  rw [hookIfSome_run env pkg "post_upgrade" sc.post_upgrade _ hpostNE hpostT hpostOk]
  simp

/-- Witness for C8 at a concrete upgrade of `foo`. -/
theorem c8_upgrade_hook_schedule_witness :
    loadPackageScript sysFooUp "foo" "pre_upgrade" = some "run-pre" ∧
    envFoo2b.readArchive "foo2b.pkg" = some archFoo2b ∧
    archFoo2b.scripts = some scFoo2 ∧
    (doRemoveForUpgrade envFoo2b "foo" sysFooUp).err = none ∧
    (doInstallForUpgrade envFoo2b "foo2b.pkg"
      (doRemoveForUpgrade envFoo2b "foo" sysFooUp).sys).err = none ∧
    (doUpgrade envFoo2b "foo" "foo2b.pkg" sysFooUp).events =
      [Event.hookRun "foo" "pre_upgrade"]
        ++ (doRemoveForUpgrade envFoo2b "foo" sysFooUp).events
        ++ (doInstallForUpgrade envFoo2b "foo2b.pkg"
             (doRemoveForUpgrade envFoo2b "foo" sysFooUp).sys).events
        ++ [Event.hookRun "foo" "post_upgrade"] :=
  ⟨by decide, by decide, by decide, by decide, by decide,
    (c8_upgrade_hook_schedule envFoo2b "foo" "foo2b.pkg" sysFooUp "run-pre" archFoo2b scFoo2
      (by decide) (by decide) (by decide) rfl (by decide) (by decide) (by decide) (by decide)
      rfl (by decide) (by decide)).1⟩

theorem installBackupStep_fs (env : FsEnv) (arch : Archive) (entry : FileEntry) (s : Sys) :
    (installBackupStep env arch entry s).sys.fs = s.fs := by
  obtain ⟨bk, d, h⟩ := installBackupStep_shape env arch entry s
  rw [h]

theorem installParentStep_fs (entry : FileEntry) (s : Sys) :
    (installParentStep entry s).sys.fs = s.fs := by
  obtain ⟨dr, d, h⟩ := installParentStep_shape entry s
  rw [h]

theorem installCopyStep_fs_ne (env : FsEnv) (arch : Archive) (entry : FileEntry) (s : Sys)
    (q : String) (hq : q ≠ entry.path) :
    (installCopyStep env arch entry s).sys.fs.get q = s.fs.get q := by
  unfold installCopyStep
  split
  · split <;> rfl
  · cases h : arch.data.get entry.path with
    | some c =>
      simp only []
      split
      · rfl
      · exact FS.get_set_ne s.fs entry.path c q hq
    | none => rfl

theorem installCopyStep_fs_set (env : FsEnv) (arch : Archive) (entry : FileEntry) (s : Sys)
    (c : String) (hdd : ¬ entry.path ∈ arch.dataDirs)
    (hdata : arch.data.get entry.path = some c)
    (hsucc : (installCopyStep env arch entry s).err = none) :
    (installCopyStep env arch entry s).sys.fs.get entry.path = some c := by
  unfold installCopyStep at hsucc ⊢
  rw [if_neg hdd] at hsucc ⊢
  rw [hdata] at hsucc ⊢
  simp only [] at hsucc ⊢
  cases hcf : env.copyFails entry.path entry.path with
  | true => simp [hcf] at hsucc
  | false => simp [hcf, FS.get_set_self]

theorem installFiles_fs_other (env : FsEnv) (arch : Archive) (q : String) :
    ∀ l s, (∀ f ∈ l, f.path ≠ q) →
      (installFiles env arch l s).sys.fs.get q = s.fs.get q := by
  intro l
  induction l with
  | nil => intro s _; rfl
  | cons entry rest ih =>
    intro s hq
    show ((installBackupStep env arch entry s).then fun u =>
      (installParentStep entry u).then fun u =>
      (installCopyStep env arch entry u).then fun u =>
      installFiles env arch rest u).sys.fs.get q = s.fs.get q
    apply Out.then_preserves (P := fun t => t.fs.get q = s.fs.get q)
    · rw [installBackupStep_fs]
    · intro u hu
      apply Out.then_preserves (P := fun t => t.fs.get q = s.fs.get q)
      · rw [installParentStep_fs]; exact hu
      · intro v hv
        apply Out.then_preserves (P := fun t => t.fs.get q = s.fs.get q)
        · rw [installCopyStep_fs_ne env arch entry v q
            (fun hc => hq entry (List.mem_cons_self entry rest) hc.symm)]
          exact hv
        · intro w hw
          rw [ih w (fun g hg => hq g (List.mem_cons_of_mem entry hg))]
          exact hw

theorem installFiles_fs_mem (env : FsEnv) (arch : Archive) (f : FileEntry) (c : String)
    (hdata : arch.data.get f.path = some c) (hdd : ¬ f.path ∈ arch.dataDirs) :
    ∀ l s, f ∈ l → (l.map (fun g => g.path)).Nodup →
      (installFiles env arch l s).err = none →
      (installFiles env arch l s).sys.fs.get f.path = some c := by
  intro l
  induction l with
  | nil => intro s hf; cases hf
  | cons entry rest ih =>
    intro s hf hnodup hsucc
    have hview : installFiles env arch (entry :: rest) s =
        (installBackupStep env arch entry s).then fun u =>
        (installParentStep entry u).then fun u =>
        (installCopyStep env arch entry u).then fun u =>
        installFiles env arch rest u := rfl
    rw [hview] at hsucc ⊢
    obtain ⟨e1, h1⟩ := Out.then_err_none hsucc
    rw [Out.then_sys_of_ok e1]
    obtain ⟨e2, h2⟩ := Out.then_err_none h1
    rw [Out.then_sys_of_ok e2]
    obtain ⟨e3, h3⟩ := Out.then_err_none h2
    rw [Out.then_sys_of_ok e3]
    rcases List.mem_cons.mp hf with heq | hmem
    · subst heq
      have hrest : ∀ g ∈ rest, g.path ≠ f.path := by
        intro g hg hc
        have hnotin : f.path ∉ rest.map (fun g => g.path) :=
          (List.nodup_cons.mp (by simpa using hnodup)).1
        exact hnotin (hc ▸ List.mem_map_of_mem (fun g => g.path) hg)
      rw [installFiles_fs_other env arch f.path rest _ hrest]
      exact installCopyStep_fs_set env arch f _ c hdd hdata e3
    · exact ih _ hmem (List.nodup_cons.mp (by simpa using hnodup)).2 h3

/-- Both branches of the conflict check leave the world untouched. -/
theorem conflictOut_sys (db : Database) (name : String) (files : List FileEntry) (s : Sys) :
    ((match conflictCheck db name files with
      | some x => (⟨s, [], some (.fileConflict x.1 x.2)⟩ : Out)
      | none => stepOk s) : Out).sys = s := by
  cases conflictCheck db name files with
  | none => rfl
  | some x => rfl

/-- C9 (amended): the for-upgrade install path has no config handling at
all: on success every manifest file — `is_config` or not — is written at
its installed path with the archive's content (the previous content
having been copied only into the transaction backup tree), and every
path outside the manifest, in particular any `<path>.new`, is left
untouched. -/
theorem c9_upgrade_overwrite_no_dot_new (env : FsEnv) (arch : Archive) (s : Sys)
    (hsucc : (doInstallForUpgradeCore env arch s).err = none)
    (hnodup : (arch.files.map (fun g => g.path)).Nodup) :
    (∀ f ∈ arch.files, ∀ c, arch.data.get f.path = some c → ¬ f.path ∈ arch.dataDirs →
      (doInstallForUpgradeCore env arch s).sys.fs.get f.path = some c) ∧
    (∀ q, (∀ f ∈ arch.files, f.path ≠ q) →
      (doInstallForUpgradeCore env arch s).sys.fs.get q = s.fs.get q) := by
  have hview : doInstallForUpgradeCore env arch s =
      ((match conflictCheck s.db arch.info.name arch.files with
        | some x => (⟨s, [], some (.fileConflict x.1 x.2)⟩ : Out)
        | none => stepOk s) : Out).then fun u =>
      (installFiles env arch arch.files u).then fun u =>
      (installDbPhase arch u).then fun u =>
      stepOk (saveJournal u) := by
    unfold doInstallForUpgradeCore
    cases conflictCheck s.db arch.info.name arch.files with
    | none => rfl
    | some x => rfl
  rw [hview] at hsucc ⊢
  obtain ⟨e1, h1⟩ := Out.then_err_none hsucc
  rw [Out.then_sys_of_ok e1]
  rw [conflictOut_sys] at h1 ⊢
  obtain ⟨e2, h2⟩ := Out.then_err_none h1
  rw [Out.then_sys_of_ok e2]
  obtain ⟨e3, h3⟩ := Out.then_err_none h2
  rw [Out.then_sys_of_ok e3]
  obtain ⟨db2, st2, d2, hdbp⟩ := installDbPhase_shape arch
    (installFiles env arch arch.files s).sys
  constructor
  · intro f hf c hdata hdd
    have hfs := installFiles_fs_mem env arch f c hdata hdd arch.files s hf hnodup e2
    simp only [stepOk, saveJournal, hdbp]
    exact hfs
  · intro q hq
    have hfs := installFiles_fs_other env arch q arch.files s hq
    simp only [stepOk, saveJournal, hdbp]
    exact hfs

/-- The world after the remove half of the concrete upgrade of `foo`. -/
def sysAfterRemove : Sys := (doRemoveForUpgrade envFoo2 "foo" sysFooConf).sys

/-- Witness for C9 at the concrete upgrade of `foo` with an edited
config file. -/
theorem c9_upgrade_overwrite_no_dot_new_witness :
    (doInstallForUpgradeCore envFoo2 archFoo2 sysAfterRemove).err = none ∧
    (archFoo2.files.map (fun g => g.path)).Nodup ∧
    (doInstallForUpgradeCore envFoo2 archFoo2 sysAfterRemove).sys.fs.get "/etc/foo.conf"
      = some "default-content" ∧
    (doInstallForUpgradeCore envFoo2 archFoo2 sysAfterRemove).sys.fs.get "/etc/foo.conf.new"
      = sysAfterRemove.fs.get "/etc/foo.conf.new" :=
  ⟨by decide, by decide,
    (c9_upgrade_overwrite_no_dot_new envFoo2 archFoo2 sysAfterRemove (by decide) (by decide)).1
      ⟨"/etc/foo.conf", 420, 7, "hc2", true⟩ (by decide) "default-content" (by decide) (by decide),
    (c9_upgrade_overwrite_no_dot_new envFoo2 archFoo2 sysAfterRemove (by decide) (by decide)).2
      "/etc/foo.conf.new" (by decide)⟩

/-! # Rollback restoration machinery (for C1) -/

/-- A rollback step never touches the backup tree, the script store, or
either journal. -/
theorem rollbackStep_shape (env : FsEnv) (s : Sys) (e : JournalEntry) :
    ∃ fs2 dirs2 db2 errs,
      rollbackStep env s e = ({ s with fs := fs2, dirs := dirs2, db := db2 }, errs) := by
  cases e with
  | fileCreated p =>
    cases hg : s.fs.get p with
    | some c =>
      simp only [rollbackStep, hg]
      split
      · exact ⟨s.fs, s.dirs, s.db, ["remove_file failed: " ++ p], by simp⟩
      · exact ⟨FS.del s.fs p, s.dirs, s.db, [], by simp⟩
    | none =>
      simp only [rollbackStep, hg]
      split
      · exact ⟨s.fs, s.dirs, s.db, ["remove_file failed: " ++ p], by simp⟩
      · exact ⟨s.fs, s.dirs, s.db, [], by simp⟩
  | fileRemoved p b =>
    cases hb : s.backups.get b with
    | some c =>
      simp only [rollbackStep, hb]
      split
      · exact ⟨s.fs, createDirAll s.dirs (parentDir p), s.db, ["copy failed: " ++ b], by simp⟩
      · exact ⟨FS.set s.fs p c, createDirAll s.dirs (parentDir p), s.db, [], by simp⟩
    | none =>
      simp only [rollbackStep, hb]
      exact ⟨s.fs, s.dirs, s.db, [], by simp⟩
  | fileModified p b =>
    cases hb : s.backups.get b with
    | some c =>
      simp only [rollbackStep, hb]
      split
      · exact ⟨s.fs, s.dirs, s.db, ["copy failed: " ++ b], by simp⟩
      · exact ⟨FS.set s.fs p c, s.dirs, s.db, [], by simp⟩
    | none =>
      simp only [rollbackStep, hb]
      exact ⟨s.fs, s.dirs, s.db, [], by simp⟩
  | dirCreated p =>
    simp only [rollbackStep]
    split
    · split
      · exact ⟨s.fs, s.dirs.filter (fun d2 => ¬ (d2 = p)), s.db, [], by simp⟩
      · exact ⟨s.fs, s.dirs, s.db, ["remove_dir failed: " ++ p], by simp⟩
    · exact ⟨s.fs, s.dirs, s.db, [], by simp⟩
  | dbPackageAdded n =>
    exact ⟨s.fs, s.dirs, (Database.remove_package s.db n).2, [], by simp [rollbackStep]⟩
  | dbPackageRemoved n data =>
    cases ha : s.db.add_package data with
    | some x =>
      simp only [rollbackStep, ha]
      exact ⟨s.fs, s.dirs, x.2, [], by simp⟩
    | none =>
      simp only [rollbackStep, ha]
      exact ⟨s.fs, s.dirs, s.db, ["add_package failed: " ++ n], by simp⟩

theorem rollbackGo_preserves (env : FsEnv) :
    ∀ l s, (rollbackGo env l s).1.backups = s.backups ∧
      (rollbackGo env l s).1.journal = s.journal ∧
      (rollbackGo env l s).1.diskJournal = s.diskJournal ∧
      (rollbackGo env l s).1.scripts = s.scripts := by
  intro l
  induction l with
  | nil => intro s; exact ⟨rfl, rfl, rfl, rfl⟩
  | cons e rest ih =>
    intro s
    obtain ⟨fs2, dirs2, db2, errs, hstep⟩ := rollbackStep_shape env s e
    have hfst : (rollbackGo env (e :: rest) s).1
        = (rollbackGo env rest (rollbackStep env s e).1).1 := rfl
    rw [hfst, hstep]
    obtain ⟨h1, h2, h3, h4⟩ := ih { s with fs := fs2, dirs := dirs2, db := db2 }
    exact ⟨h1, h2, h3, h4⟩

theorem rollbackGo_append_fst (env : FsEnv) :
    ∀ l1 l2 s, (rollbackGo env (l1 ++ l2) s).1
      = (rollbackGo env l2 (rollbackGo env l1 s).1).1 := by
  intro l1
  induction l1 with
  | nil => intro l2 s; rfl
  | cons e rest ih =>
    intro l2 s
    have h1 : (rollbackGo env ((e :: rest) ++ l2) s).1
        = (rollbackGo env (rest ++ l2) (rollbackStep env s e).1).1 := rfl
    have h2 : (rollbackGo env (e :: rest) s).1
        = (rollbackGo env rest (rollbackStep env s e).1).1 := rfl
    rw [h1, h2]
    exact ih l2 (rollbackStep env s e).1

/-- Under a failure-free environment the remove loop succeeds. -/
theorem removeFilesLoop_ok (env : FsEnv) (pkg : String)
    (hcf : ∀ a b, env.copyFails a b = false) (hrf : ∀ a, env.removeFails a = false) :
    ∀ l s, (removeFilesLoop env pkg l s).1.err = none := by
  intro l
  induction l with
  | nil => intro s; rfl
  | cons p rest ih =>
    intro s
    cases hg : s.fs.get p with
    | none =>
      simp only [removeFilesLoop, hg]
      exact ih s
    | some c =>
      simp only [removeFilesLoop, hg, hcf, hrf]
      simp only [if_neg (show ¬ (false = true) by simp)]
      exact ih { s with backups := s.backups.set (backupPath pkg p) c, fs := FS.del s.fs p, journal := s.journal ++ [.fileRemoved p (backupPath pkg p)] }

/-- The remove loop leaves a backup key alone when no listed path that is
still a file maps to it. -/
theorem removeFilesLoop_backups_other (env : FsEnv) (pkg : String)
    (hcf : ∀ a b, env.copyFails a b = false) (hrf : ∀ a, env.removeFails a = false) :
    ∀ l s k, (∀ p ∈ l, backupPath pkg p = k → s.fs.get p = none) →
      (removeFilesLoop env pkg l s).1.sys.backups.get k = s.backups.get k := by
  intro l
  induction l with
  | nil => intro s k _; rfl
  | cons p rest ih =>
    intro s k hk
    cases hg : s.fs.get p with
    | none =>
      simp only [removeFilesLoop, hg]
      exact ih s k (fun p2 hp2 hbp => hk p2 (List.mem_cons_of_mem p hp2) hbp)
    | some c =>
      have hbp : backupPath pkg p ≠ k := by
        intro hc
        rw [hk p (List.mem_cons_self p rest) hc] at hg
        exact Option.noConfusion hg
      simp only [removeFilesLoop, hg, hcf, hrf]
      simp only [if_neg (show ¬ (false = true) by simp)]
      rw [ih _ k ?hcond]
      · exact FS.get_set_ne s.backups (backupPath pkg p) c k (fun hc => hbp hc.symm)
      case hcond =>
        intro p2 hp2 hbp2
        by_cases hpp : p2 = p
        · subst hpp
          exact FS.get_del_self s.fs p2
        · rw [FS.get_del_ne s.fs p p2 hpp]
          exact hk p2 (List.mem_cons_of_mem p hp2) hbp2

/-- Rolling back exactly the journal delta produced by the remove loop
restores every file's content and leaves the database alone. -/
theorem removeLoop_rollback_restores (env : FsEnv) (pkg : String)
    (hcf : ∀ a b, env.copyFails a b = false) (hrf : ∀ a, env.removeFails a = false) :
    ∀ l s t,
      (∀ p1 ∈ l, ∀ p2 ∈ l, backupPath pkg p1 = backupPath pkg p2 → p1 = p2) →
      t.fs = (removeFilesLoop env pkg l s).1.sys.fs →
      t.backups = (removeFilesLoop env pkg l s).1.sys.backups →
      (∀ q, (rollbackGo env
          (((removeFilesLoop env pkg l s).1.sys.journal.drop s.journal.length).reverse) t).1.fs.get q
        = s.fs.get q) ∧
      (rollbackGo env
          (((removeFilesLoop env pkg l s).1.sys.journal.drop s.journal.length).reverse) t).1.db
        = t.db := by
  intro l
  induction l with
  | nil =>
    intro s t _ htf _
    simp only [removeFilesLoop, stepOk, List.drop_length, List.reverse_nil]
    exact ⟨fun q => by rw [show (rollbackGo env [] t).1 = t from rfl, htf]; rfl, rfl⟩
  | cons p rest ih =>
    intro s t hinj htf htb
    cases hg : s.fs.get p with
    | none =>
      simp only [removeFilesLoop, hg] at htf htb ⊢
      exact ih s t
        (fun p1 h1 p2 h2 => hinj p1 (List.mem_cons_of_mem p h1) p2 (List.mem_cons_of_mem p h2))
        htf htb
    | some c =>
      simp only [removeFilesLoop, hg, hcf, hrf] at htf htb ⊢
      simp only [if_neg (show ¬ (false = true) by simp)] at htf htb ⊢
      rcases hrec : removeFilesLoop env pkg rest { s with backups := s.backups.set (backupPath pkg p) c, fs := FS.del s.fs p, journal := s.journal ++ [.fileRemoved p (backupPath pkg p)] } with ⟨o, ds⟩
      simp only [hrec] at htf htb ⊢
      obtain ⟨fs2, bk2, d2, hsh⟩ := removeFilesLoop_shape env pkg rest { s with backups := s.backups.set (backupPath pkg p) c, fs := FS.del s.fs p, journal := s.journal ++ [.fileRemoved p (backupPath pkg p)] }
      rw [hrec] at hsh
      have hoj : o.sys.journal
          = (s.journal ++ [JournalEntry.fileRemoved p (backupPath pkg p)]) ++ d2 := by
        rw [hsh]
      have hdrop : o.sys.journal.drop s.journal.length
          = [JournalEntry.fileRemoved p (backupPath pkg p)] ++ d2 := by
        rw [hoj, List.append_assoc]
        exact List.drop_left s.journal _
      rw [hdrop, List.reverse_append, List.reverse_singleton]
      have ihres := ih { s with backups := s.backups.set (backupPath pkg p) c, fs := FS.del s.fs p, journal := s.journal ++ [.fileRemoved p (backupPath pkg p)] } t (fun p1 h1 p2 h2 => hinj p1 (List.mem_cons_of_mem p h1) p2 (List.mem_cons_of_mem p h2)) (by rw [htf, hrec]) (by rw [htb, hrec])
      rw [hrec] at ihres
      have hdrop2 : o.sys.journal.drop
          (s.journal ++ [JournalEntry.fileRemoved p (backupPath pkg p)]).length = d2 := by
        rw [hoj]
        exact List.drop_left _ _
      simp only [hdrop2] at ihres
      obtain ⟨ihfs, ihdb⟩ := ihres
      rw [rollbackGo_append_fst]
      have hback : (rollbackGo env d2.reverse t).1.backups.get (backupPath pkg p) = some c := by
        rw [(rollbackGo_preserves env d2.reverse t).1, htb]
        have hother := removeFilesLoop_backups_other env pkg hcf hrf rest { s with backups := s.backups.set (backupPath pkg p) c, fs := FS.del s.fs p, journal := s.journal ++ [.fileRemoved p (backupPath pkg p)] } (backupPath pkg p) ?hcond
        · rw [hrec] at hother
          rw [hother]
          exact FS.get_set_self s.backups (backupPath pkg p) c
        case hcond =>
          intro p2 hp2 hbp2
          have : p2 = p := hinj p2 (List.mem_cons_of_mem p hp2) p (List.mem_cons_self p rest) hbp2
          subst this
          exact FS.get_del_self s.fs p2
      have hstep : (rollbackGo env [JournalEntry.fileRemoved p (backupPath pkg p)]
          (rollbackGo env d2.reverse t).1).1
          = { (rollbackGo env d2.reverse t).1 with
              dirs := createDirAll (rollbackGo env d2.reverse t).1.dirs (parentDir p),
              fs := (rollbackGo env d2.reverse t).1.fs.set p c } := by
        have h1 : (rollbackGo env [JournalEntry.fileRemoved p (backupPath pkg p)]
            (rollbackGo env d2.reverse t).1).1
            = (rollbackStep env (rollbackGo env d2.reverse t).1
                (JournalEntry.fileRemoved p (backupPath pkg p))).1 := rfl
        rw [h1]
        simp only [rollbackStep, hback, hcf]
        simp only [if_neg (show ¬ (false = true) by simp)]
      rw [hstep]
      refine ⟨fun q => ?_, ihdb⟩
      by_cases hq : q = p
      · subst hq
        rw [FS.get_set_self, hg]
      · rw [FS.get_set_ne _ p c q hq, ihfs q]
        exact FS.get_del_ne s.fs p q hq

/-! DB facts used to settle what rollback does and does not restore. -/

theorem find_none_append {α : Type} (p : α → Bool) (l1 l2 : List α)
    (h : l1.find? p = none) : (l1 ++ l2).find? p = l2.find? p := by
  induction l1 with
  | nil => rfl
  | cons a rest ih =>
    cases hp : p a with
    | true =>
      rw [List.find?_cons_of_pos _ hp] at h
      exact absurd h (by simp)
    | false =>
      rw [List.cons_append, List.find?_cons_of_neg _ (by simp [hp])]
      rw [List.find?_cons_of_neg _ (by simp [hp])] at h
      exact ih h

theorem get_package_name {db : Database} {n : String} {r : InstalledPackage}
    (h : db.get_package n = some r) : r.name = n := by
  unfold Database.get_package at h
  cases hf : db.packages.find? (fun row => row.pkg.name = n) with
  | none => rw [hf] at h; exact Option.noConfusion h
  | some row =>
    rw [hf] at h
    have hrow : row.pkg = r := by
      simp only [Option.map] at h
      exact Option.some.inj h
    have := List.find?_some hf
    rw [hrow] at this
    exact of_decide_eq_true this

theorem remove_package_db (db : Database) (n : String) (hfk : db.foreignKeys = true) :
    (db.remove_package n).2 =
      { db with
        packages := db.packages.filter (fun r => ¬ (r.pkg.name = n)),
        files := db.files.filter (fun f =>
          ¬ (f.package_id ∈ (db.packages.filter (fun r => r.pkg.name = n)).map (fun r => r.id))),
        deps := db.deps.filter (fun d =>
          ¬ (d.package_id ∈ (db.packages.filter (fun r => r.pkg.name = n)).map (fun r => r.id))) } := by
  simp only [Database.remove_package, hfk]
  rfl

theorem remove_package_no_name (db : Database) (n : String) (hfk : db.foreignKeys = true) :
    ((db.remove_package n).2).packages.any (fun r => r.pkg.name = n) = false := by
  rw [remove_package_db db n hfk]
  simp only []
  rw [List.any_eq_false]
  intro r hr
  have := (List.mem_filter.mp hr).2
  simpa using this

theorem mem_insertString {x y : String} : ∀ l, y ∈ insertString x l → y = x ∨ y ∈ l := by
  intro l
  induction l with
  | nil =>
    intro h
    rcases List.mem_singleton.mp h with h2
    exact Or.inl h2
  | cons a rest ih =>
    intro h
    unfold insertString at h
    by_cases hle : leStr x a
    · rw [if_pos hle] at h
      rcases List.mem_cons.mp h with h2 | h2
      · exact Or.inl h2
      · exact Or.inr h2
    · rw [if_neg hle] at h
      rcases List.mem_cons.mp h with h2 | h2
      · exact Or.inr (h2 ▸ List.mem_cons_self a rest)
      · rcases ih h2 with h3 | h3
        · exact Or.inl h3
        · exact Or.inr (List.mem_cons_of_mem a h3)

theorem mem_sortStrings {y : String} : ∀ l, y ∈ sortStrings l → y ∈ l := by
  intro l
  induction l with
  | nil => intro h; exact absurd h (List.not_mem_nil y)
  | cons a rest ih =>
    intro h
    rcases mem_insertString (sortStrings rest) h with h2 | h2
    · exact h2 ▸ List.mem_cons_self a rest
    · exact List.mem_cons_of_mem a (ih h2)

theorem Out.then_err_of_ok {o : Out} (f : Sys → Out) (h : o.err = none) :
    (o.then f).err = (f o.sys).err := by
  rw [Out.then_of_ok f h]

set_option maxHeartbeats 1600000 in
/-- C1 (amended): after a failure-free `do_remove` that started with an
empty journal, `Transaction::rollback` (the reverse journal walk) restores
every file's content bit-identical and re-inserts the removed package's
`packages` record — but it does NOT restore the package's `files` rows:
the rolled-back database answers `get_files pkg = []`, so the database is
not bit-identical to its pre-transaction state whenever the package owned
any file.  (`dbPackageRemoved` re-runs `add_package`, which writes only
the `packages` row; nothing re-runs `add_file`.) -/
theorem c1_rollback_restores_files_not_db_rows (env : FsEnv) (pkg : String)
    (s : Sys) (pkgRec : InstalledPackage)
    (hcf : ∀ a b, env.copyFails a b = false)
    (hrf : ∀ a, env.removeFails a = false)
    (hpkg : Database.get_package s.db pkg = some pkgRec)
    (hpre : loadPackageScript s pkg "pre_remove" = none)
    (hpost : loadPackageScript s pkg "post_remove" = none)
    (hj : s.journal = [])
    (hfk : s.db.foreignKeys = true)
    (hwf : ∀ fr ∈ s.db.files, fr.package_id < s.db.nextId)
    (hinj : ∀ p1 ∈ (Database.get_files s.db pkg).map (fun f => f.path),
            ∀ p2 ∈ (Database.get_files s.db pkg).map (fun f => f.path),
            backupPath pkg p1 = backupPath pkg p2 → p1 = p2) :
    (doRemove env pkg s).err = none ∧
    (∀ q, (rollback env (doRemove env pkg s).sys).1.fs.get q = s.fs.get q) ∧
    Database.get_package (rollback env (doRemove env pkg s).sys).1.db pkg = some pkgRec ∧
    Database.get_files (rollback env (doRemove env pkg s).sys).1.db pkg = [] := by
  rcases hloop : removeFilesLoop env pkg ((sortStrings ((Database.get_files s.db pkg).map (fun f => f.path))).reverse) { s with journal := s.journal ++ [JournalEntry.dbPackageRemoved pkg pkgRec] } with ⟨o, ds⟩
  have hrc : removeCore env pkg pkgRec s = o.then fun u =>
      (⟨{ dirCleanup ((sortStrings ds.dedup).reverse) u with
          db := (Database.remove_package (dirCleanup ((sortStrings ds.dedup).reverse) u).db pkg).2 },
        [.dbRemoved pkg], none⟩ : Out) := by
    unfold removeCore
    simp only [hloop]
  have hoerr : o.err = none := by
    have h1 := removeFilesLoop_ok env pkg hcf hrf ((sortStrings ((Database.get_files s.db pkg).map (fun f => f.path))).reverse) { s with journal := s.journal ++ [JournalEntry.dbPackageRemoved pkg pkgRec] }
    rw [hloop] at h1
    exact h1
  obtain ⟨fs2, bk2, d2, hsh⟩ := removeFilesLoop_shape env pkg ((sortStrings ((Database.get_files s.db pkg).map (fun f => f.path))).reverse) { s with journal := s.journal ++ [JournalEntry.dbPackageRemoved pkg pkgRec] }
  rw [hloop] at hsh
  obtain ⟨dirs2, hdc⟩ := dirCleanup_shape ((sortStrings ds.dedup).reverse) o.sys
  have hodb : o.sys.db = s.db := by rw [hsh]
  have hojr : o.sys.journal
      = (s.journal ++ [JournalEntry.dbPackageRemoved pkg pkgRec]) ++ d2 := by rw [hsh]
  have hoscr : o.sys.scripts = s.scripts := by rw [hsh]
  have hOerr : (removeCore env pkg pkgRec s).err = none := by
    rw [hrc, Out.then_err_of_ok _ hoerr]
  have hu : (removeCore env pkg pkgRec s).sys
      = { o.sys with dirs := dirs2, db := (Database.remove_package o.sys.db pkg).2 } := by
    rw [hrc, Out.then_sys_of_ok hoerr]
    show ({ dirCleanup ((sortStrings ds.dedup).reverse) o.sys with
        db := (Database.remove_package (dirCleanup ((sortStrings ds.dedup).reverse) o.sys).db pkg).2 } : Sys) = _
    rw [hdc]
  have hpost2 : loadPackageScript (removeCore env pkg pkgRec s).sys pkg "post_remove" = none := by
    unfold loadPackageScript
    have hscr : (removeCore env pkg pkgRec s).sys.scripts = s.scripts := by
      rw [hu]
      exact hoscr
    rw [hscr]
    exact hpost
  have hstep1 : doRemove env pkg s = (stepOk s).then fun v =>
      (removeCore env pkg pkgRec v).then fun u =>
      (hookIfSome env pkg "post_remove" (loadPackageScript u pkg "post_remove") u).then fun w =>
      stepOk (saveJournal (removePackageScripts pkg w)) := by
    simp only [doRemove, hpkg, hpre]
    rfl
  have herr : (doRemove env pkg s).err = none := by
    rw [hstep1]
    have h1 : ((stepOk s).then fun v =>
        (removeCore env pkg pkgRec v).then fun u =>
        (hookIfSome env pkg "post_remove" (loadPackageScript u pkg "post_remove") u).then fun w =>
        stepOk (saveJournal (removePackageScripts pkg w))).err
        = ((removeCore env pkg pkgRec s).then fun u =>
          (hookIfSome env pkg "post_remove" (loadPackageScript u pkg "post_remove") u).then fun w =>
          stepOk (saveJournal (removePackageScripts pkg w))).err := Out.then_err_of_ok _ rfl
    rw [h1, Out.then_err_of_ok _ hOerr]
    rw [hpost2]
    rfl
  have hsys1 : (doRemove env pkg s).sys
      = saveJournal (removePackageScripts pkg (removeCore env pkg pkgRec s).sys) := by
    rw [hstep1]
    have h1 : ((stepOk s).then fun v =>
        (removeCore env pkg pkgRec v).then fun u =>
        (hookIfSome env pkg "post_remove" (loadPackageScript u pkg "post_remove") u).then fun w =>
        stepOk (saveJournal (removePackageScripts pkg w))).sys
        = ((removeCore env pkg pkgRec s).then fun u =>
          (hookIfSome env pkg "post_remove" (loadPackageScript u pkg "post_remove") u).then fun w =>
          stepOk (saveJournal (removePackageScripts pkg w))).sys := Out.then_sys_of_ok rfl
    rw [h1, Out.then_sys_of_ok hOerr]
    rw [hpost2]
    rfl
  have hjF : (doRemove env pkg s).sys.journal
      = [JournalEntry.dbPackageRemoved pkg pkgRec] ++ d2 := by
    rw [hsys1]
    show (removeCore env pkg pkgRec s).sys.journal = _
    rw [hu]
    show o.sys.journal = _
    rw [hojr, hj]
    rfl
  have htfF : (doRemove env pkg s).sys.fs = o.sys.fs := by
    rw [hsys1]
    show (removeCore env pkg pkgRec s).sys.fs = _
    rw [hu]
  have htbF : (doRemove env pkg s).sys.backups = o.sys.backups := by
    rw [hsys1]
    show (removeCore env pkg pkgRec s).sys.backups = _
    rw [hu]
  have hdbF : (doRemove env pkg s).sys.db = (Database.remove_package s.db pkg).2 := by
    rw [hsys1]
    show (removeCore env pkg pkgRec s).sys.db = _
    rw [hu]
    show (Database.remove_package o.sys.db pkg).2 = _
    rw [hodb]
  obtain ⟨hMfs, hMdb⟩ := removeLoop_rollback_restores env pkg hcf hrf
    ((sortStrings ((Database.get_files s.db pkg).map (fun f => f.path))).reverse)
    { s with journal := s.journal ++ [JournalEntry.dbPackageRemoved pkg pkgRec] }
    (doRemove env pkg s).sys
    (fun p1 h1 p2 h2 => hinj p1 (mem_sortStrings _ (List.mem_reverse.mp h1))
      p2 (mem_sortStrings _ (List.mem_reverse.mp h2)))
    (by rw [hloop]; exact htfF) (by rw [hloop]; exact htbF)
  rw [hloop] at hMfs hMdb
  have hd2 : List.drop ({ s with journal := s.journal ++ [JournalEntry.dbPackageRemoved pkg pkgRec] } : Sys).journal.length (o, ds).1.sys.journal = d2 := by
    show List.drop (s.journal ++ [JournalEntry.dbPackageRemoved pkg pkgRec]).length o.sys.journal = d2
    rw [hojr]
    exact List.drop_left _ _
  rw [hd2] at hMfs hMdb
  have hMfs2 : ∀ q, (rollbackGo env d2.reverse (doRemove env pkg s).sys).1.fs.get q
      = s.fs.get q := fun q => hMfs q
  have hMdb2 : (rollbackGo env d2.reverse (doRemove env pkg s).sys).1.db
      = (doRemove env pkg s).sys.db := hMdb
  have hrev : ([JournalEntry.dbPackageRemoved pkg pkgRec] ++ d2).reverse
      = d2.reverse ++ [JournalEntry.dbPackageRemoved pkg pkgRec] := by
    rw [List.reverse_append, List.reverse_singleton]
  have hRsplit : (rollback env (doRemove env pkg s).sys).1
      = (rollbackStep env (rollbackGo env d2.reverse (doRemove env pkg s).sys).1
          (JournalEntry.dbPackageRemoved pkg pkgRec)).1 := by
    show (rollbackGo env ((doRemove env pkg s).sys.journal.reverse) (doRemove env pkg s).sys).1 = _
    rw [hjF, hrev, rollbackGo_append_fst]
    rfl
  have hname : pkgRec.name = pkg := get_package_name hpkg
  have hany := remove_package_no_name s.db pkg hfk
  have hR1db : (rollbackGo env d2.reverse (doRemove env pkg s).sys).1.db
      = (Database.remove_package s.db pkg).2 := by rw [hMdb2, hdbF]
  have hadd : ((Database.remove_package s.db pkg).2).add_package pkgRec
      = some ((Database.remove_package s.db pkg).2.nextId,
        { (Database.remove_package s.db pkg).2 with
          packages := (Database.remove_package s.db pkg).2.packages
            ++ [(⟨(Database.remove_package s.db pkg).2.nextId, pkgRec⟩ : PackageRow)],
          nextId := (Database.remove_package s.db pkg).2.nextId + 1 }) := by
    simp only [Database.add_package, hname, hany]
    simp only [if_neg (show ¬ (false = true) by simp)]
  have hstepF : (rollbackStep env (rollbackGo env d2.reverse (doRemove env pkg s).sys).1
        (JournalEntry.dbPackageRemoved pkg pkgRec)).1
      = { (rollbackGo env d2.reverse (doRemove env pkg s).sys).1 with
          db := { (Database.remove_package s.db pkg).2 with
            packages := (Database.remove_package s.db pkg).2.packages
              ++ [(⟨(Database.remove_package s.db pkg).2.nextId, pkgRec⟩ : PackageRow)],
            nextId := (Database.remove_package s.db pkg).2.nextId + 1 } } := by
    simp only [rollbackStep, hR1db, hadd]
  have hD2 := remove_package_db s.db pkg hfk
  have hfind1 : ((Database.remove_package s.db pkg).2.packages.find?
      (fun r => r.pkg.name = pkg)) = none := by
    rw [hD2]
    rw [List.find?_eq_none]
    intro r hr
    have h2 := (List.mem_filter.mp hr).2
    simp only [decide_not, decide_eq_true_eq, Bool.not_eq_true', decide_eq_false_iff_not] at h2 ⊢
    exact h2
  have hgp : Database.get_package
      { (Database.remove_package s.db pkg).2 with
        packages := (Database.remove_package s.db pkg).2.packages
          ++ [(⟨(Database.remove_package s.db pkg).2.nextId, pkgRec⟩ : PackageRow)],
        nextId := (Database.remove_package s.db pkg).2.nextId + 1 } pkg = some pkgRec := by
    unfold Database.get_package
    show (((Database.remove_package s.db pkg).2.packages
      ++ [(⟨(Database.remove_package s.db pkg).2.nextId, pkgRec⟩ : PackageRow)]).find?
        (fun r => r.pkg.name = pkg)).map (fun r => r.pkg) = some pkgRec
    rw [find_none_append _ _ _ hfind1]
    rw [List.find?_cons_of_pos _ (by simp [hname])]
    rfl
  have hgf : Database.get_files
      { (Database.remove_package s.db pkg).2 with
        packages := (Database.remove_package s.db pkg).2.packages
          ++ [(⟨(Database.remove_package s.db pkg).2.nextId, pkgRec⟩ : PackageRow)],
        nextId := (Database.remove_package s.db pkg).2.nextId + 1 } pkg = [] := by
    unfold Database.get_files
    have hnil : ((({ (Database.remove_package s.db pkg).2 with
        packages := (Database.remove_package s.db pkg).2.packages
          ++ [(⟨(Database.remove_package s.db pkg).2.nextId, pkgRec⟩ : PackageRow)],
        nextId := (Database.remove_package s.db pkg).2.nextId + 1 } : Database).files.filter
          (fun f => (({ (Database.remove_package s.db pkg).2 with
            packages := (Database.remove_package s.db pkg).2.packages
              ++ [(⟨(Database.remove_package s.db pkg).2.nextId, pkgRec⟩ : PackageRow)],
            nextId := (Database.remove_package s.db pkg).2.nextId + 1 } : Database).packages.find?
              (fun r => r.id = f.package_id)).any (fun r => r.pkg.name = pkg)))) = [] := by
      rw [List.filter_eq_nil_iff]
      intro f hf
      have hfmem : f ∈ (Database.remove_package s.db pkg).2.files := hf
      have hfmem2 : f ∈ s.db.files := by
        rw [hD2] at hfmem
        exact (List.mem_filter.mp hfmem).1
      have hflt := hwf f hfmem2
      intro hcontra
      cases hfind : (((Database.remove_package s.db pkg).2.packages
          ++ [(⟨(Database.remove_package s.db pkg).2.nextId, pkgRec⟩ : PackageRow)]).find?
            (fun r => r.id = f.package_id)) with
      | none =>
        rw [show (({ (Database.remove_package s.db pkg).2 with
            packages := (Database.remove_package s.db pkg).2.packages
              ++ [(⟨(Database.remove_package s.db pkg).2.nextId, pkgRec⟩ : PackageRow)],
            nextId := (Database.remove_package s.db pkg).2.nextId + 1 } : Database).packages.find?
              (fun r => r.id = f.package_id))
          = (((Database.remove_package s.db pkg).2.packages
            ++ [(⟨(Database.remove_package s.db pkg).2.nextId, pkgRec⟩ : PackageRow)]).find?
              (fun r => r.id = f.package_id)) from rfl, hfind] at hcontra
        exact Bool.noConfusion hcontra
      | some r =>
        rw [show (({ (Database.remove_package s.db pkg).2 with
            packages := (Database.remove_package s.db pkg).2.packages
              ++ [(⟨(Database.remove_package s.db pkg).2.nextId, pkgRec⟩ : PackageRow)],
            nextId := (Database.remove_package s.db pkg).2.nextId + 1 } : Database).packages.find?
              (fun r => r.id = f.package_id))
          = (((Database.remove_package s.db pkg).2.packages
            ++ [(⟨(Database.remove_package s.db pkg).2.nextId, pkgRec⟩ : PackageRow)]).find?
              (fun r => r.id = f.package_id)) from rfl, hfind] at hcontra
        have hrid : r.id = f.package_id := by
          have := List.find?_some hfind
          exact of_decide_eq_true this
        have hrname : r.pkg.name = pkg := by
          have : (decide (r.pkg.name = pkg)) = true := hcontra
          exact of_decide_eq_true this
        have hrmem := List.mem_of_find?_eq_some hfind
        rcases List.mem_append.mp hrmem with hin | hin
        · rw [hD2] at hin
          have h2 := (List.mem_filter.mp hin).2
          simp only [decide_not, decide_eq_true_eq, Bool.not_eq_true', decide_eq_false_iff_not] at h2
          exact h2 hrname
        · have hreq : r = ⟨(Database.remove_package s.db pkg).2.nextId, pkgRec⟩ :=
            List.mem_singleton.mp hin
          have hid2 : (Database.remove_package s.db pkg).2.nextId = s.db.nextId := by
            rw [hD2]
          rw [hreq] at hrid
          simp only [] at hrid
          rw [hid2] at hrid
          rw [hrid] at hflt
          exact absurd hflt (lt_irrefl _)
    rw [hnil]
    rfl
  refine ⟨herr, ?_, ?_, ?_⟩
  · intro q
    rw [hRsplit, hstepF]
    exact hMfs2 q
  · rw [hRsplit, hstepF]
    exact hgp
  · rw [hRsplit, hstepF]
    exact hgf

/-- Witness for C1's amended theorem: removing `foo` from the world
`sysFoo` and rolling back restores `/usr/bin/x` and the `packages` row,
while `get_files foo` answers the empty list. -/
theorem c1_rollback_restores_files_not_db_rows_witness :
    (doRemove envGhost "foo" sysFoo).err = none ∧
    (rollback envGhost (doRemove envGhost "foo" sysFoo).sys).1.fs.get "/usr/bin/x"
      = sysFoo.fs.get "/usr/bin/x" ∧
    Database.get_package (rollback envGhost (doRemove envGhost "foo" sysFoo).sys).1.db "foo"
      = some fooRecord ∧
    Database.get_files (rollback envGhost (doRemove envGhost "foo" sysFoo).sys).1.db "foo" = [] :=
  ⟨(c1_rollback_restores_files_not_db_rows envGhost "foo" sysFoo fooRecord
      (fun _ _ => rfl) (fun _ => rfl) (by decide) rfl rfl rfl rfl (by decide) (by decide)).1,
   (c1_rollback_restores_files_not_db_rows envGhost "foo" sysFoo fooRecord
      (fun _ _ => rfl) (fun _ => rfl) (by decide) rfl rfl rfl rfl (by decide) (by decide)).2.1
      "/usr/bin/x",
   (c1_rollback_restores_files_not_db_rows envGhost "foo" sysFoo fooRecord
      (fun _ _ => rfl) (fun _ => rfl) (by decide) rfl rfl rfl rfl (by decide) (by decide)).2.2.1,
   (c1_rollback_restores_files_not_db_rows envGhost "foo" sysFoo fooRecord
      (fun _ _ => rfl) (fun _ => rfl) (by decide) rfl rfl rfl rfl (by decide) (by decide)).2.2.2⟩

/-- C2 (amended): each rollback step's error is tolerated and discarded
(`.ok()`), the walk continues past it, and `Transaction::rollback` always
returns `Ok(())` — so a transaction whose operation fails is always
marked `RolledBack`; the `Failed` state is unreachable from `execute`. -/
theorem c2_rollback_errors_discarded :
    (∀ env s, (rollback env s).2.2 = Except.ok ()) ∧
    (∀ env s e rest, (rollbackGo env (e :: rest) s).2
        = (rollbackStep env s e).2 ++ (rollbackGo env rest (rollbackStep env s e).1).2) ∧
    (∀ env tx, tx.state = TransactionState.Pending →
      (Tx.execute env tx).tx.state = TransactionState.Completed ∨
      (Tx.execute env tx).tx.state = TransactionState.RolledBack) := by
  refine ⟨fun env s => rfl, fun env s e rest => rfl, fun env tx h => ?_⟩
  unfold Tx.execute
  rw [if_neg (by simp [h])]
  cases ho : (executeOps env tx.operations tx.sys).err with
  | none => simp only [ho]; left; trivial
  | some e =>
    simp only [ho]
    right
    simp [rollback]

/-- Witness for C2 at the failing-unlink transaction. -/
theorem c2_rollback_errors_discarded_witness :
    txInstallThenGhost.state = TransactionState.Pending ∧
    ((Tx.execute envUnlinkFails txInstallThenGhost).tx.state = TransactionState.Completed ∨
     (Tx.execute envUnlinkFails txInstallThenGhost).tx.state = TransactionState.RolledBack) :=
  ⟨rfl, c2_rollback_errors_discarded.2.2 envUnlinkFails txInstallThenGhost rfl⟩

/-- C3 (amended): every persist of the journal is a single direct
`fs::write` of the serialized journal onto the journal path (no temp
file, no fsync, no rename); the journal is saved at the end of each
operation, so a successful operation leaves the on-disk journal equal to
the in-memory journal, and every operation keeps the on-disk journal a
prefix of the in-memory journal (operations only append and only save
the full journal). -/
theorem c3_journal_single_write_and_prefix :
    (∀ txDir j, saveJournalActions txDir j
        = [FsAction.write (txDir ++ "/journal.toml") (encodeJournal j)]) ∧
    (∀ env op s, diskJournalIsPrefix s →
      diskJournalIsPrefix (executeOperation env op s).sys) ∧
    (∀ env op s, (executeOperation env op s).err = none →
      (executeOperation env op s).sys.diskJournal
        = (executeOperation env op s).sys.journal) :=
  ⟨fun _ _ => rfl, executeOperation_JP, executeOperation_saved⟩

/-- Witness for C3 at a concrete remove operation. -/
theorem c3_journal_single_write_and_prefix_witness :
    diskJournalIsPrefix sysFoo ∧
    (executeOperation envGhost (Operation.remove "foo") sysFoo).err = none ∧
    diskJournalIsPrefix (executeOperation envGhost (Operation.remove "foo") sysFoo).sys ∧
    (executeOperation envGhost (Operation.remove "foo") sysFoo).sys.diskJournal
      = (executeOperation envGhost (Operation.remove "foo") sysFoo).sys.journal :=
  ⟨⟨[], rfl⟩, by decide,
    c3_journal_single_write_and_prefix.2.1 envGhost (Operation.remove "foo") sysFoo ⟨[], rfl⟩,
    c3_journal_single_write_and_prefix.2.2 envGhost (Operation.remove "foo") sysFoo (by decide)⟩

end RookPkg
